import Mathlib

/-!
Verification of the smart-date-input engine (src/lib/activity-date-utils.ts).

The TypeScript source is shallowly embedded below.  Strings are lists of
characters; JavaScript numbers carrying confidence scores are embedded as
rationals; JavaScript `Date` values are embedded as a calendar point
(`JSDate`): a day number relative to the epoch plus the milliseconds of the
wall-clock day, with civil-calendar conversions used where the source does
month arithmetic or reads calendar fields.  The two genuinely external
functions — the JavaScript `new Date(string)` generic parser used by the
fallback resolver, and the date-fns `format` renderer used for previews —
are passed in as explicit function parameters, mirroring the spec's
requirement that the engine be deterministic in its inputs.
-/

/-- Strings of the embedded program are represented as lists of characters. -/
abbrev Str := List Char

/-!  Confidence scores are embedded exactly in fixed point, as integer
thousandths: the source only ever uses decimal constants (0.3, 0.85, …),
sums of two of them, the one product `0.8·0.9` or `0.85·0.9`, a `+0.2`
boost and a cap at 1.0, all of which are exact in thousandths, and every
comparison in the source is against a decimal threshold.  So 300 stands
for 0.3, 1000 for 1.0, and so on. -/

/-- Exact product of two fixed-point confidences (used for the `·0.9`
weekday time variants, where the product is exact). -/
def confMul (a b : Int) : Int := a * b / 1000

/-- Character class for the regex `\d`, i.e. the ASCII digits. -/
def digitB (c : Char) : Bool := decide ('0' ≤ c ∧ c ≤ '9')

/-- ASCII whitespace, the characters relevant to `\s` and `trim` here. -/
def wsB (c : Char) : Bool := c = ' ' ∨ c = '\t' ∨ c = '\n' ∨ c = '\r'

/-- Character class for the regex `\w`: letters, digits and underscore. -/
def wordB (c : Char) : Bool :=
  decide ('a' ≤ c ∧ c ≤ 'z') || decide ('A' ≤ c ∧ c ≤ 'Z') || digitB c || c = '_'

/-- ASCII lower-casing of one character, embedding `toLowerCase`. -/
def lowerChar (c : Char) : Char :=
  if 'A' ≤ c ∧ c ≤ 'Z' then Char.ofNat (c.toNat + 32) else c

/-- Embedding of `String.prototype.trim` (ASCII whitespace). -/
def trimStr (s : Str) : Str :=
  ((s.dropWhile wsB).reverse.dropWhile wsB).reverse

/-- Does `s` start with `p`?  (Prefix test used by the matchers.) -/
def strStarts : Str → Str → Bool
  | _, [] => true
  | [], _ :: _ => false
  | c :: cs, p :: ps => c = p && strStarts cs ps

/-- Embedding of `String.prototype.includes`: does `hay` contain `pat`? -/
def strIncludes (hay pat : Str) : Bool :=
  if strStarts hay pat then true else
    match hay with
    | [] => false
    | _ :: t => strIncludes t pat

/-- Embedding of `String.prototype.replace` with a plain-string pattern:
remove the first occurrence of `pat` (the source always replaces with the
empty string). -/
def replaceFirst (s pat : Str) : Str :=
  if strStarts s pat then s.drop pat.length else
    match s with
    | [] => []
    | c :: t => c :: replaceFirst t pat

/-- Numeric value of a digit string (helper for `parseInt`). -/
def digitsToInt (s : Str) : Int :=
  s.foldl (fun a c => a * 10 + ((c.toNat : Int) - 48)) 0

/-- Embedding of `parseInt(s, 10)`: optional leading whitespace and sign,
then at least one digit; `none` plays the role of `NaN`. -/
def parseIntOpt (s : Str) : Option Int :=
  let s1 := s.dropWhile wsB
  let (neg, s2) : Bool × Str :=
    match s1 with
    | '-' :: t => (true, t)
    | '+' :: t => (false, t)
    | t => (false, t)
  let ds := s2.takeWhile digitB
  if ds.isEmpty then none
  else some (if neg then -(digitsToInt ds) else digitsToInt ds)

/-- Decimal numeral of a natural number (JS template `${n}`). -/
def natToStr (n : Nat) : Str := (Nat.repr n).toList

/-- Upper-case the first character (`s.charAt(0).toUpperCase() + s.slice(1)`). -/
def capFirst : Str → Str
  | [] => []
  | c :: t => (if 'a' ≤ c ∧ c ≤ 'z' then Char.ofNat (c.toNat - 32) else c) :: t

/-!  The calendar model for JavaScript `Date` / date-fns operations. -/

/-- Embedded `Date` value: `day` counts calendar days from 1970-01-01, `ms`
is the milliseconds elapsed in that wall-clock day, and `valid` is false for
JavaScript's Invalid Date (a NaN time value, produced when an operation
leaves the representable range).  The `day`/`ms` fields of an invalid date
are meaningless and zeroed; accessors are only meaningful on valid dates. -/
structure JSDate where
  day : Int
  ms : Int
  valid : Bool
deriving DecidableEq, Repr

/-- The canonical Invalid Date (NaN time value; NaN propagates, so one
sentinel suffices). -/
def invalidDate : JSDate := ⟨0, 0, false⟩

/-- The ECMA-262 `TimeClip` bound: a time value is representable only when
its magnitude is at most 8.64e15 milliseconds (100 000 000 days). -/
def jsMaxTime : Int := 8640000000000000

/-- Embedding of `Date.prototype.getTime` (with the local offset taken as
zero, as the spec confines the engine to the local wall clock). -/
def getTime (d : JSDate) : Int := d.day * 86400000 + d.ms

/-- Civil date of a day number (proleptic Gregorian; Hinnant's algorithm). -/
def civilFromDays (z0 : Int) : Int × Int × Int :=
  let z := z0 + 719468
  let era := Int.fdiv z 146097
  let doe := z - era * 146097
  let yoe := Int.fdiv (doe - Int.fdiv doe 1460 + Int.fdiv doe 36524 - Int.fdiv doe 146096) 365
  let y := yoe + era * 400
  let doy := doe - (365 * yoe + Int.fdiv yoe 4 - Int.fdiv yoe 100)
  let mp := Int.fdiv (5 * doy + 2) 153
  let d := doy - Int.fdiv (153 * mp + 2) 5 + 1
  let m := if mp < 10 then mp + 3 else mp - 9
  (if m ≤ 2 then y + 1 else y, m, d)

/-- Day number of a civil date (month `1..12`; the day may be out of range,
matching the rollover of the JavaScript `Date` constructor). -/
def daysFromCivil (y0 m d : Int) : Int :=
  let y := if m ≤ 2 then y0 - 1 else y0
  let era := Int.fdiv y 400
  let yoe := y - era * 400
  let mp := if m ≤ 2 then m + 9 else m - 3
  let doy := Int.fdiv (153 * mp + 2) 5 + d - 1
  let doe := yoe * 365 + Int.fdiv yoe 4 - Int.fdiv yoe 100 + doy
  era * 146097 + doe - 719468

/-- Gregorian leap-year test. -/
def isLeap (y : Int) : Bool := (y % 4 = 0 ∧ y % 100 ≠ 0) ∨ y % 400 = 0

/-- Number of days in a month (month `1..12`). -/
def daysInMonth (y m : Int) : Int :=
  if m = 2 then (if isLeap y then 29 else 28)
  else if m = 4 ∨ m = 6 ∨ m = 9 ∨ m = 11 then 30 else 31

/-- Embedding of `new Date(year, month0, day)` with a zero-based month,
JavaScript's normalisation of out-of-range months and days, and the
`TimeClip` range check. -/
def mkDate (y month0 d : Int) : JSDate :=
  if -jsMaxTime ≤ daysFromCivil (Int.fdiv (y * 12 + month0) 12)
        (Int.emod (y * 12 + month0) 12 + 1) d * 86400000 ∧
      daysFromCivil (Int.fdiv (y * 12 + month0) 12)
        (Int.emod (y * 12 + month0) 12 + 1) d * 86400000 ≤ jsMaxTime then
    ⟨daysFromCivil (Int.fdiv (y * 12 + month0) 12)
      (Int.emod (y * 12 + month0) 12 + 1) d, 0, true⟩
  else invalidDate

/-- Embedding of date-fns `addDays`, which goes through `Date.setDate` and
therefore `TimeClip`: an invalid input, or a result outside the ±8.64e15 ms
JavaScript `Date` range, yields the Invalid Date.  (JS `parseInt` counts
above 2^53 lose precision in the double, but every such count is far beyond
this range, so the observable result — Invalid — is the same.) -/
def addDays (d : JSDate) (n : Int) : JSDate :=
  if d.valid = true ∧ -jsMaxTime ≤ (d.day + n) * 86400000 + d.ms ∧
      (d.day + n) * 86400000 + d.ms ≤ jsMaxTime then
    ⟨d.day + n, d.ms, true⟩
  else invalidDate

/-- Embedding of date-fns `addMonths` (the day clamps to the target month),
with the same `TimeClip` discipline as `addDays`. -/
def addMonths (dt : JSDate) (n : Int) : JSDate :=
  let c := civilFromDays dt.day
  let total := c.1 * 12 + (c.2.1 - 1) + n
  let ty := Int.fdiv total 12
  let tm := Int.emod total 12 + 1
  let day := daysFromCivil ty tm (min c.2.2 (daysInMonth ty tm))
  if dt.valid = true ∧ -jsMaxTime ≤ day * 86400000 + dt.ms ∧
      day * 86400000 + dt.ms ≤ jsMaxTime then
    ⟨day, dt.ms, true⟩
  else invalidDate

/-- Embedding of date-fns `endOfDay` (a same-day field adjustment; the
validity flag is carried through). -/
def endOfDay (d : JSDate) : JSDate := ⟨d.day, 86399999, d.valid⟩

/-- Embedding of date-fns `startOfDay` (validity carried through). -/
def startOfDay (d : JSDate) : JSDate := ⟨d.day, 0, d.valid⟩

/-- Embedding of date-fns `setMinutes` (keeps hour, seconds, milliseconds;
validity carried through). -/
def setMinutes (d : JSDate) (m : Int) : JSDate :=
  ⟨d.day, (d.ms / 3600000) * 3600000 + m * 60000 + d.ms % 60000, d.valid⟩

/-- Embedding of date-fns `setHours` (keeps minutes, seconds, milliseconds;
validity carried through). -/
def setHours (d : JSDate) (h : Int) : JSDate :=
  ⟨d.day, h * 3600000 + d.ms % 3600000, d.valid⟩

/-- Embedding of `Date.prototype.getDay` (0 = Sunday; 1970-01-01 was a
Thursday). -/
def getDay (d : JSDate) : Int := (d.day + 4) % 7

/-- Embedding of `Date.prototype.getFullYear`. -/
def getFullYear (d : JSDate) : Int := (civilFromDays d.day).1

/-- Embedding of `Date.prototype.getDate` (day of the month). -/
def getDate (d : JSDate) : Int := (civilFromDays d.day).2.2

/-- Embedding of `Date.prototype.getHours`. -/
def getHours (d : JSDate) : Int := d.ms / 3600000

/-!  Time Extractor: the three time regexes, tried in source order, each
searched left to right with `\b` boundaries and greedy backtracking. -/

/-- Captures of a time-pattern match: `whole` is `match[0]`, `g1` the hour
digits, `g2` the optional minute digits, `g3` the optional am/pm marker. -/
structure TimeMatch where
  whole : Str
  g1 : Str
  g2 : Option Str
  g3 : Option Str
deriving DecidableEq, Repr

/-- Candidates for the greedy `(\d{1,2})`: two digits first, then one. -/
def digits12 : Str → List (Str × Str)
  | [] => []
  | a :: t =>
      if digitB a then
        match t with
        | [] => [([a], [])]
        | b :: r => if digitB b then [([a, b], r), ([a], b :: r)] else [([a], b :: r)]
      else []

/-- Candidates for the greedy optional group `(?::(\d{2}))?`: with the colon
first, then without; each candidate is (captured minutes, consumed text,
remaining text). -/
def optColonMM (s : Str) : List (Option Str × Str × Str) :=
  match s with
  | [] => [(none, [], [])]
  | c :: t =>
      if c = ':' then
        match t with
        | a :: b :: rest =>
            if digitB a && digitB b then
              [(some [a, b], [c, a, b], rest), (none, [], c :: t)]
            else [(none, [], c :: t)]
        | _ => [(none, [], c :: t)]
      else [(none, [], c :: t)]

/-- Greedy `\s*`: the consumed whitespace and the remaining text. -/
def spanSpaces (s : Str) : Str × Str := (s.takeWhile wsB, s.dropWhile wsB)

/-- Match `(am|pm)` at the front of the text. -/
def ampmAt : Str → Option (Str × Str)
  | [] => none
  | c :: t =>
      if c = 'a' then
        match t with
        | 'm' :: rest => some (['a', 'm'], rest)
        | _ => none
      else if c = 'p' then
        match t with
        | 'm' :: rest => some (['p', 'm'], rest)
        | _ => none
      else none

/-- Word boundary after a word character: end of text or a non-word head. -/
def bdAfter : Str → Bool
  | [] => true
  | c :: _ => !wordB c

/-- Tail of the first time pattern after the hour digits:
`(?::(\d{2}))?\s*(am|pm)\b`. -/
def p1Rest (ds : Str) (r : Str) : Option TimeMatch :=
  (optColonMM r).findSome? fun cand =>
    let sp := spanSpaces cand.2.2
    match ampmAt sp.2 with
    | some (ap, r4) =>
        if bdAfter r4 then some ⟨ds ++ cand.2.1 ++ sp.1 ++ ap, ds, cand.1, some ap⟩
        else none
    | none => none

/-- First time pattern, matched at the start of the text:
`\b(\d{1,2})(?::(\d{2}))?\s*(am|pm)\b` (the leading boundary is checked by
the scanner). -/
def pat1At (s : Str) : Option TimeMatch :=
  (digits12 s).findSome? fun cand => p1Rest cand.1 cand.2

/-- Tail of the second time pattern after the hour digits: `:(\d{2})\b`. -/
def p2Rest (ds : Str) (r : Str) : Option TimeMatch :=
  match r with
  | [] => none
  | c :: t =>
      if c = ':' then
        match t with
        | a :: b :: rest =>
            if digitB a && digitB b && bdAfter rest then
              some ⟨ds ++ [c, a, b], ds, some [a, b], none⟩
            else none
        | _ => none
      else none

/-- Second time pattern, at the start of the text: `\b(\d{1,2}):(\d{2})\b`. -/
def pat2At (s : Str) : Option TimeMatch :=
  (digits12 s).findSome? fun cand => p2Rest cand.1 cand.2

/-- Tail of the third time pattern after the hour digits: `\s*(am|pm)\b`. -/
def p3Rest (ds : Str) (r : Str) : Option TimeMatch :=
  let sp := spanSpaces r
  match ampmAt sp.2 with
  | some (ap, r4) =>
      if bdAfter r4 then some ⟨ds ++ sp.1 ++ ap, ds, none, some ap⟩ else none
  | none => none

/-- Third time pattern, at the start of the text: `\b(\d{1,2})\s*(am|pm)\b`. -/
def pat3At (s : Str) : Option TimeMatch :=
  (digits12 s).findSome? fun cand => p3Rest cand.1 cand.2

/-- Left-to-right search: try `att` at every position whose previous
character is not a word character (all patterns here begin with `\b` and a
word character, so those are exactly the viable positions).  `prevW` says
whether the previous character was a word character; it starts `false`. -/
def scanBd (att : Str → Option TimeMatch) : Bool → Str → Option TimeMatch
  | _, [] => none
  | prevW, c :: rest =>
      match (if prevW then none else att (c :: rest)) with
      | some m => some m
      | none => scanBd att (wordB c) rest

/-- The Time Extractor's pattern loop: each pattern is searched over the
whole text; the first pattern family with a match anywhere wins. -/
def timeSearch (s : Str) : Option TimeMatch :=
  match scanBd pat1At false s with
  | some m => some m
  | none =>
      match scanBd pat2At false s with
      | some m => some m
      | none => scanBd pat3At false s

/-- Hour/minute extraction from a time match: `parseInt` both groups, apply
the am/pm adjustment, and accept only in-range values (lines 61–75 of the
source).  `none` means the match is rejected. -/
def timeAccept (m : TimeMatch) : Option (Int × Int) :=
  let hours0 : Int := match parseIntOpt m.g1 with | some v => v | none => 0
  let minutes : Int :=
    match m.g2 with
    | some d2 => (match parseIntOpt d2 with | some v => v | none => 0)
    | none => 0
  let hours : Int :=
    if m.g3 = some ['p', 'm'] ∧ hours0 ≠ 12 then hours0 + 12
    else if m.g3 = some ['a', 'm'] ∧ hours0 = 12 then 0
    else hours0
  if 0 ≤ hours ∧ hours ≤ 23 ∧ 0 ≤ minutes ∧ minutes ≤ 59 then
    some (hours, minutes)
  else none

/-!  Relative Resolver: the anchored whole-string rule table. -/

/-- Anchored match of `^in (\d+) days?$`: the captured count on success. -/
def inDaysMatch : Str → Option Int
  | 'i' :: 'n' :: ' ' :: rest =>
      let ds := rest.takeWhile digitB
      let r2 := rest.dropWhile digitB
      if ds.isEmpty then none
      else if r2 = " day".toList ∨ r2 = " days".toList then some (digitsToInt ds)
      else none
  | _ => none

/-- Anchored match of `^(\d+) days? ago$`: the captured count on success. -/
def agoMatch (s : Str) : Option Int :=
  let ds := s.takeWhile digitB
  let r2 := s.dropWhile digitB
  if ds.isEmpty then none
  else if r2 = " day ago".toList ∨ r2 = " days ago".toList then some (digitsToInt ds)
  else none

/-- The Relative Resolver: the ordered rule table of lines 86–143, applied
to the time-stripped text.  Returns (resolved date, `match[0]`, weight). -/
def relMatch (now : JSDate) (s : Str) : Option (JSDate × Str × Int) :=
  if s = "today".toList ∨ s = "now".toList then some (addDays now 0, s, 900)
  else if s = "tomorrow".toList then some (addDays now 1, s, 900)
  else if s = "yesterday".toList then some (addDays now (-1), s, 900)
  else if s = "next week".toList ∨ s = "in a week".toList then some (addDays now 7, s, 800)
  else if s = "last week".toList ∨ s = "a week ago".toList then some (addDays now (-7), s, 800)
  else if s = "next month".toList ∨ s = "in a month".toList then some (addMonths now 1, s, 800)
  else if s = "last month".toList ∨ s = "a month ago".toList then some (addMonths now (-1), s, 800)
  else
    match inDaysMatch s with
    | some n => some (addDays now n, s, 850)
    | none =>
        match agoMatch s with
        | some n => some (addDays now (-n), s, 850)
        | none =>
            if s = "end of day".toList ∨ s = "eod".toList then some (endOfDay now, s, 700)
            else if s = "start of day".toList ∨ s = "beginning of day".toList then
              some (startOfDay now, s, 700)
            else none

/-!  Weekday Resolver. -/

/-- The weekday names, in source order (Monday first). -/
def weekdayNames : List Str :=
  ["monday".toList, "tuesday".toList, "wednesday".toList, "thursday".toList,
   "friday".toList, "saturday".toList, "sunday".toList]

/-- Index of a whole-string weekday name. -/
def weekdayIdx (s : Str) : Option Nat := weekdayNames.findIdx? (fun n => n = s)

/-- Split the optional `(next\s+)?` group: the remainder after `next` plus
at least one whitespace character, if present. -/
def nextSplit (s : Str) : Option Str :=
  if strStarts s "next".toList then
    let r := s.drop 4
    let sp := r.takeWhile wsB
    if sp.isEmpty then none else some (r.dropWhile wsB)
  else none

/-- Anchored match of `^(next\s+)?(monday|…|sunday)$`: whether the `next`
group matched, and the weekday index. -/
def weekdayAnchored (s : Str) : Option (Bool × Nat) :=
  match nextSplit s with
  | some rest =>
      match weekdayIdx rest with
      | some i => some (true, i)
      | none => (weekdayIdx s).map (fun i => (false, i))
  | none => (weekdayIdx s).map (fun i => (false, i))

/-- The Weekday Resolver (lines 145–181): target weekday number with Monday
as 1, `next`-aware day delta, weight 0.85 (850) with `next` and 0.8 (800) without. -/
def weekdayResolve (now : JSDate) (s : Str) : Option (JSDate × Str × Int) :=
  match weekdayAnchored s with
  | none => none
  | some (isNext, idx) =>
      let target : Int := (idx : Int) + 1
      let todayW : Int := if getDay now = 0 then 7 else getDay now
      let delta0 : Int := target - todayW
      let delta : Int := if isNext || decide (delta0 ≤ 0) then delta0 + 7 else delta0
      some (addDays now delta, s, if isNext then 850 else 800)

/-!  Month/Day Resolver: three searched patterns and the branch that decodes
the captures (lines 183–291).  The source dispatches on
`pattern.toString().includes("jan|january")`, which is true for the first
TWO patterns (both spell out the month alternation); that constant is
recorded per pattern in `isJan`. -/

/-- Captures of a month-pattern match. -/
structure MonthMatch where
  whole : Str
  g1 : Str
  g2 : Str
  isJan : Bool
deriving DecidableEq, Repr

/-- The month alternation of the source, in source order: short then long
form per month, except that `may` appears once (its short and long forms
coincide), so the list has 23 entries. -/
def monthNamesList : List Str :=
  ["jan".toList, "january".toList, "feb".toList, "february".toList,
   "mar".toList, "march".toList, "apr".toList, "april".toList,
   "may".toList, "jun".toList, "june".toList, "jul".toList, "july".toList,
   "aug".toList, "august".toList, "sep".toList, "september".toList,
   "oct".toList, "october".toList, "nov".toList, "november".toList,
   "dec".toList, "december".toList]

/-- First month pattern at the start of the text:
`\b(jan|…|december)\s+(\d{1,2})(?:\s+(?:at|@))?` — the alternation tries the
names in listed order; the optional ` at`/` @` tail extends `match[0]`. -/
def monthP1At (s : Str) : Option MonthMatch :=
  monthNamesList.findSome? fun name =>
    if strStarts s name then
      let r1 := s.drop name.length
      let sp1 := r1.takeWhile wsB
      if sp1.isEmpty then none
      else
        (digits12 (r1.dropWhile wsB)).findSome? fun cand =>
          let sp2 := cand.2.takeWhile wsB
          let r3 := cand.2.dropWhile wsB
          let tail : Str :=
            if !sp2.isEmpty ∧ strStarts r3 "at".toList then sp2 ++ "at".toList
            else if !sp2.isEmpty ∧ strStarts r3 "@".toList then sp2 ++ "@".toList
            else []
          some ⟨name ++ sp1 ++ cand.1 ++ tail, name, cand.1, true⟩
    else none

/-- Second month pattern at the start of the text: `\b(\d{1,2})\s+(jan|…|december)`. -/
def monthP2At (s : Str) : Option MonthMatch :=
  (digits12 s).findSome? fun cand =>
    let sp := cand.2.takeWhile wsB
    if sp.isEmpty then none
    else
      let r2 := cand.2.dropWhile wsB
      monthNamesList.findSome? fun name =>
        if strStarts r2 name then some ⟨cand.1 ++ sp ++ name, cand.1, name, true⟩
        else none

/-- Third month pattern at the start of the text: one or two digits, a slash
or hyphen separator, one or two digits, then a word boundary. -/
def monthP3At (s : Str) : Option MonthMatch :=
  (digits12 s).findSome? fun cand =>
    match cand.2 with
    | sep :: r2 =>
        if sep = '/' ∨ sep = '-' then
          (digits12 r2).findSome? fun cand2 =>
            if bdAfter cand2.2 then some ⟨cand.1 ++ sep :: cand2.1, cand.1, cand2.1, false⟩
            else none
        else none
    | [] => none

/-- Scanner for month matches, with the same `\b` discipline as `scanBd`
(all three patterns open with a word character after `\b`). -/
def scanMonth (att : Str → Option MonthMatch) : Bool → Str → Option MonthMatch
  | _, [] => none
  | prevW, c :: rest =>
      match (if prevW then none else att (c :: rest)) with
      | some m => some m
      | none => scanMonth att (wordB c) rest

/-- The pattern loop of the Month/Day Resolver: first pattern with a match
anywhere wins, and later patterns are not tried (the `break` after a match). -/
def monthSearch (s : Str) : Option MonthMatch :=
  match scanMonth monthP1At false s with
  | some m => some m
  | none =>
      match scanMonth monthP2At false s with
      | some m => some m
      | none => scanMonth monthP3At false s

/-- The `findIndex` over the 24 month names by 3-letter-prefix lookup; `-1`
when nothing matches, as in JavaScript. -/
def monthIdxOf (monthStr : Str) : Int :=
  match monthNamesList.findIdx? (fun name => strStarts monthStr (name.take 3)) with
  | some i => (i : Int)
  | none => -1

/-- Decode a month match (lines 197–284): the dispatch on `isJan`, the dead
day-first branch, the numeric branch, range validation, and the
roll-to-next-year rule.  `none` when validation rejects the captures. -/
def monthBranch (now : JSDate) (m : MonthMatch) : Option (JSDate × Str) :=
  let md : Option Int × Option Int :=
    if m.isJan then (some (Int.fdiv (monthIdxOf m.g1) 2), parseIntOpt m.g2)
    else if !m.g2.isEmpty ∧ parseIntOpt m.g2 = none then
      (some (Int.fdiv (monthIdxOf m.g2) 2), parseIntOpt m.g1)
    else ((parseIntOpt m.g1).map (fun v => v - 1), parseIntOpt m.g2)
  match md with
  | (some month, some day) =>
      if 0 ≤ month ∧ month ≤ 11 ∧ 1 ≤ day ∧ day ≤ 31 then
        let year := getFullYear now
        let p := mkDate year month day
        some ((if getTime p < getTime now then mkDate (year + 1) month day else p), m.whole)
      else none
  | _ => none

/-- The Month/Day Resolver: search the three patterns, decode the first hit. -/
def monthResolve (now : JSDate) (s : Str) : Option (JSDate × Str) :=
  (monthSearch s).bind (monthBranch now)

/-!  The parser: stages and assembly (lines 36–329). -/

/-- Components record of a parse result (`parsedComponents`). -/
structure ParsedComponents where
  relative : Option Str
  time : Option Str
  weekday : Option Str
  date : Option Str
  modifiers : Option (List Str)
deriving DecidableEq, Repr

/-- Embedding of `DateParseResult`. -/
structure DateParseResult where
  date : JSDate
  confidence : Int
  originalInput : Str
  parsedComponents : ParsedComponents
deriving DecidableEq, Repr

/-- The trimmed, lower-cased text the parser works on. -/
def trimmedOf (input : Str) : Str := (trimStr input).map lowerChar

/-- The Time Extractor's match on the trimmed text (line 59). -/
def timeMatchOf (input : Str) : Option TimeMatch := timeSearch (trimmedOf input)

/-- The accepted extracted time, if the match passed range validation. -/
def extractedTimeOf (input : Str) : Option (Int × Int) :=
  (timeMatchOf input).bind timeAccept

/-- Confidence contributed by the Time Extractor (0.3, i.e. 300, on acceptance). -/
def timeConfOf (input : Str) : Int := if (extractedTimeOf input).isSome then 300 else 0

/-- The `parsedComponents.time` entry (set only on acceptance). -/
def timeCompOf (input : Str) : Option Str :=
  if (extractedTimeOf input).isSome then (timeMatchOf input).map (fun m => m.whole) else none

/-- The text handed to the date resolvers (lines 81–83): whenever the time
regex matched — accepted or not — the matched substring is removed. -/
def inputWithoutTimeOf (input : Str) : Str :=
  match timeMatchOf input with
  | some m => trimStr (replaceFirst (trimmedOf input) m.whole)
  | none => trimmedOf input

/-- Outcome of the date-resolver chain: date, component tags, weight. -/
structure DateResolution where
  date : JSDate
  relative : Option Str
  weekday : Option Str
  dateComp : Option Str
  weight : Int

/-- The resolver chain (relative, weekday, month/day, generic fallback) in
source order; `std` embeds the external `new Date(string)` parser applied to
the ORIGINAL input, yielding `none` for an invalid date. -/
def resolveDate (std : Str → Option JSDate) (now : JSDate) (input iwt : Str) :
    Option DateResolution :=
  match relMatch now iwt with
  | some r => some ⟨r.1, some r.2.1, none, none, r.2.2⟩
  | none =>
      match weekdayResolve now iwt with
      | some r => some ⟨r.1, none, some r.2.1, none, r.2.2⟩
      | none =>
          match monthResolve now iwt with
          | some r => some ⟨r.1, none, none, some r.2, 750⟩
          | none =>
              match std input with
              | some d => some ⟨d, none, none, none, 500⟩
              | none => none

/-- Overwrite the resolved date's hour and minute with the extracted time
(line 311–316: `setHours(setMinutes(date, minutes), hours)`). -/
def applyTime (et : Option (Int × Int)) (d : JSDate) : JSDate :=
  match et with
  | some hm => setHours (setMinutes d hm.2) hm.1
  | none => d

/-- Final assembly (lines 318–328): reject below the 0.3 floor (300), cap at
1.0 (1000). -/
def assembleResult (input : Str) (comps : ParsedComponents) (conf : Int) (d : JSDate) :
    Option DateParseResult :=
  if conf < 300 then none
  else some ⟨d, min conf 1000, input, comps⟩

/-- Embedding of `parseSmartDateString`.  `std` is the external generic date
parser used by the fallback resolver. -/
def parseSmartDateString (std : Str → Option JSDate) (now : JSDate) (input : Str) :
    Option DateParseResult :=
  if (trimStr input).isEmpty then none
  else
    match resolveDate std now input (inputWithoutTimeOf input) with
    | none => none
    | some dr =>
        assembleResult input
          ⟨dr.relative, timeCompOf input, dr.weekday, dr.dateComp, none⟩
          (timeConfOf input + dr.weight)
          (applyTime (extractedTimeOf input) dr.date)

/-!  Due-date helpers (lines 710–766). -/

/-- Embedding of `isOverdue`: the guard `!dueDate` is JavaScript falsiness,
so both a missing value and the timestamp 0 yield `false`. -/
def isOverdue (nowMs : Int) (dueDate : Option Int) : Bool :=
  match dueDate with
  | none => false
  | some t => if t = 0 then false else decide (t < nowMs)

/-- The five states of `getDueDateStatus`. -/
inductive DueStatus
  | overdue
  | dueToday
  | dueSoon
  | notDue
  | noDueDate
deriving DecidableEq, Repr

/-- Result record of `getDueDateStatus`. -/
structure DueDateStatus where
  status : DueStatus
  text : Str
  className : Str
deriving DecidableEq, Repr

/-- Embedding of `getDueDateStatus`.  `relTime` embeds the external
`formatDistanceToNow` rendering and `fmtD` the date-fns `format`; `now`
supplies both `Date.now()` and the end-of-today/end-of-tomorrow boundaries.
The `!dueDate` guard is falsiness, so the timestamp 0 is "no due date". -/
def getDueDateStatus (relTime : Int → Str) (fmtD : Int → Str → Str)
    (now : JSDate) (dueDate : Option Int) : DueDateStatus :=
  match dueDate with
  | none => ⟨.noDueDate, "No due date".toList, "text-gray-500".toList⟩
  | some t =>
      if t = 0 then ⟨.noDueDate, "No due date".toList, "text-gray-500".toList⟩
      else
        let nowMs := getTime now
        let todayEnd := now.day * 86400000 + 86399999
        let tomorrowEnd := (now.day + 1) * 86400000 + 86399999
        if t < nowMs then
          ⟨.overdue, "Overdue ".toList ++ relTime t, "text-red-600 font-medium".toList⟩
        else if t ≤ todayEnd then
          ⟨.dueToday, "Due today".toList, "text-orange-600 font-medium".toList⟩
        else if t ≤ tomorrowEnd then
          ⟨.dueSoon, "Due tomorrow".toList, "text-yellow-600".toList⟩
        else ⟨.notDue, "Due ".toList ++ fmtD t "MMM dd".toList, "text-gray-600".toList⟩

/-!  Suggestion generator (lines 350–685). -/

/-- The suggestion categories, a closed enumeration. -/
inductive SCategory
  | relative
  | time
  | date
  | natural
deriving DecidableEq, Repr

/-- Embedding of `SmartSuggestion`. -/
structure SmartSuggestion where
  label : Str
  value : Str
  confidence : Int
  preview : Str
  parsedDate : Option JSDate
  category : SCategory
deriving DecidableEq, Repr

/-- Format string passed for previews with a time of day: `MMM dd`, a
quoted literal `at` (the quotes are U+0027, built with `Char.ofNat 39`),
then `h:mma`. -/
def fmtWithTime : Str :=
  "MMM dd ".toList ++ Char.ofNat 39 :: "at".toList ++ Char.ofNat 39 :: " h:mma".toList

/-- Format string `MMM dd, yyyy`. -/
def fmtDateOnly : Str := "MMM dd, yyyy".toList

/-- The curated empty-input branch (lines 359–414): three fixed relative
suggestions, two more when time is enabled, previews built by re-parsing,
truncated to four. -/
def emptyBranch (std : Str → Option JSDate) (fmt : JSDate → Str → Str)
    (now : JSDate) (showTime : Bool) : List SmartSuggestion :=
  let base : List (Str × Str × Int) :=
    [("Tomorrow".toList, "tomorrow".toList, 1000),
     ("Next week".toList, "next week".toList, 1000),
     ("Next Monday".toList, "next monday".toList, 900)] ++
    (if showTime then
      [("Tomorrow 10am".toList, "tomorrow 10am".toList, 900),
       ("End of day".toList, "end of day".toList, 800)]
     else [])
  (base.map fun b =>
    match parseSmartDateString std now b.2.1 with
    | some pr =>
        ⟨b.1, b.2.1, b.2.2, fmt pr.date (if showTime then fmtWithTime else fmtDateOnly),
         some pr.date, .relative⟩
    | none => ⟨b.1, b.2.1, b.2.2, b.1, none, .relative⟩).take 4

/-- The boosted direct-parse suggestion (lines 417–432): emitted when the
raw input parses with confidence above 0.5 (500), at confidence +0.2 (+200)
capped at 1.0 (1000).  Known representation corner: this fixed-point boost
is exact, so 0.7 + 0.2 lands exactly on 0.9, whereas the program's binary
doubles give 0.8999999999999999 < 0.9; on inputs whose direct parse has
confidence exactly 0.7 the program therefore picks the ≥ 0.7 tier where
this model picks the ≥ 0.9 tier.  Both branches of the tier cap yield a
deduplicated, sorted sublist satisfying the tier property, so the
list-invariant and parseability theorems below hold of either behaviour. -/
def naturalList (fmt : JSDate → Str → Str) (input : Str) (showTime : Bool)
    (currentParse : Option DateParseResult) : List SmartSuggestion :=
  match currentParse with
  | some cp =>
      if 500 < cp.confidence then
        [⟨'"' :: input ++ '"' :: ' ' :: '→' :: ' ' ::
            fmt cp.date (if showTime then fmtWithTime else fmtDateOnly),
          input, min (cp.confidence + 200) 1000,
          fmt cp.date (if showTime then fmtWithTime else fmtDateOnly),
          some cp.date, .natural⟩]
      else []
  | none => []

/-- The time-keyword cues of line 439. -/
def timeKeywords : List Str :=
  ["am".toList, "pm".toList, ":".toList, "morning".toList, "afternoon".toList,
   "evening".toList, "night".toList]

/-- Contextual time suggestions (lines 438–475): today/tomorrow crossed with
fixed times, each validated through the parser, confidence 0.85 (850). -/
def timeCtx (std : Str → Option JSDate) (fmt : JSDate → Str → Str) (now : JSDate)
    (trimmed : Str) (showTime : Bool) : List SmartSuggestion :=
  if showTime && timeKeywords.any (fun k => strIncludes trimmed k) then
    ([("today".toList, ["9am".toList, "12pm".toList, "2pm".toList, "5pm".toList]),
      ("tomorrow".toList, ["9am".toList, "10am".toList, "2pm".toList, "3pm".toList])]
      : List (Str × List Str)).flatMap fun b =>
      b.2.filterMap fun t =>
        match parseSmartDateString std now (b.1 ++ ' ' :: t) with
        | some pr =>
            some ⟨capFirst b.1 ++ ' ' :: t, b.1 ++ ' ' :: t, 850, fmt pr.date fmtWithTime,
              some pr.date, .time⟩
        | none => none
  else []

/-- The twelve month abbreviations of lines 478–491. -/
def monthAbbrevs : List Str :=
  ["jan".toList, "feb".toList, "mar".toList, "apr".toList, "may".toList,
   "jun".toList, "jul".toList, "aug".toList, "sep".toList, "oct".toList,
   "nov".toList, "dec".toList]

/-- One month's contextual suggestions (lines 498–522): the 1st and the
15th, skipped when past the month's last day, each validated through the
parser (confidence 0.65, i.e. 650) and skipping the user's own text. -/
def monthCtxBody (std : Str → Option JSDate) (fmt : JSDate → Str → Str) (now : JSDate)
    (trimmed : Str) (month : Str) : List SmartSuggestion :=
  (([1, 15] : List Nat).filter fun d =>
      decide (Int.ofNat d ≤
        getDate (mkDate (getFullYear now) ((monthAbbrevs.indexOf month : Nat) + 1) 0))).filterMap
    fun d =>
      match parseSmartDateString std now (month ++ ' ' :: natToStr d) with
      | some pr =>
          if month ++ ' ' :: natToStr d ≠ trimmed then
            some ⟨capFirst month ++ ' ' :: natToStr d, month ++ ' ' :: natToStr d, 650,
              fmt pr.date fmtDateOnly, some pr.date, .date⟩
          else none
      | none => none

/-- Contextual month suggestions (lines 492–523): at most one matched
month, only when there is no direct parse of confidence at least 0.7. -/
def monthCtx (std : Str → Option JSDate) (fmt : JSDate → Str → Str) (now : JSDate)
    (trimmed : Str) (currentParse : Option DateParseResult) : List SmartSuggestion :=
  if (match currentParse with
      | none => true
      | some cp => decide (cp.confidence < 700)) then
    (((monthAbbrevs.filter fun m =>
        strIncludes m trimmed || strIncludes trimmed m).take 1)).flatMap
      (monthCtxBody std fmt now trimmed)
  else []

/-- Contextual weekday suggestions (lines 525–577): bare and `next `-prefixed
forms for every matched weekday, plus time variants when time is enabled. -/
def weekdayCtx (std : Str → Option JSDate) (fmt : JSDate → Str → Str) (now : JSDate)
    (trimmed : Str) (showTime : Bool) : List SmartSuggestion :=
  (weekdayNames.filter fun d =>
    strIncludes d trimmed || strIncludes trimmed (d.take 3)).flatMap fun wd =>
    ([[], "next ".toList] : List Str).flatMap fun pre =>
      match parseSmartDateString std now (pre ++ wd) with
      | none => []
      | some pr =>
          ⟨(if pre.isEmpty then capFirst wd else "Next ".toList ++ capFirst wd), pre ++ wd,
            (if pre.isEmpty then (800 : Int) else 850), fmt pr.date fmtDateOnly,
            some pr.date, .relative⟩ ::
          (if showTime then
            (["9am".toList, "2pm".toList, "5pm".toList]).filterMap fun t =>
              match parseSmartDateString std now (pre ++ wd ++ ' ' :: t) with
              | some tpr =>
                  some ⟨(if pre.isEmpty then [] else "Next ".toList) ++ capFirst wd ++
                      " at ".toList ++ t, pre ++ wd ++ ' ' :: t,
                    confMul (if pre.isEmpty then (800 : Int) else 850) 900,
                    fmt tpr.date fmtWithTime, some tpr.date, .time⟩
              | none => none
           else [])

/-- The four keyword families of lines 586–614: substring cues (the regexes
have no anchors, so `test` is containment of either alternative) and their
canned phrases. -/
def relFamilies : List (List Str × List Str) :=
  [(["today".toList, "now".toList],
    ["today".toList, "today 9am".toList, "today 2pm".toList, "today 5pm".toList,
     "end of day".toList]),
   (["tomorrow".toList, "tom".toList],
    ["tomorrow".toList, "tomorrow 9am".toList, "tomorrow 10am".toList,
     "tomorrow 2pm".toList]),
   (["next".toList, "week".toList],
    ["next week".toList, "next monday".toList, "next friday".toList, "in 7 days".toList]),
   (["month".toList],
    ["next month".toList, "in 30 days".toList, "end of month".toList])]

/-- Push one canned phrase (lines 621–649): skip am/pm phrases when time is
off, validate through the parser, and skip values already present. -/
def pushPhrase (std : Str → Option JSDate) (fmt : JSDate → Str → Str) (now : JSDate)
    (showTime : Bool) (acc : List SmartSuggestion) (ph : Str) : List SmartSuggestion :=
  if !showTime && (strIncludes ph "am".toList || strIncludes ph "pm".toList) then acc
  else
    match parseSmartDateString std now ph with
    | some pr =>
        if acc.any (fun s => s.value = ph) then acc
        else
          acc ++ [⟨capFirst ph, ph, 800,
            fmt pr.date
              (if showTime && (strIncludes ph "am".toList || strIncludes ph "pm".toList)
               then fmtWithTime else fmtDateOnly),
            some pr.date,
            (if strIncludes ph "am".toList || strIncludes ph "pm".toList then .time
             else .relative)⟩]
    | none => acc

/-- The keyword-family stage (lines 584–653): only when no high-confidence
direct parse exists; only the first family whose cue matches contributes,
and only its first two phrases are tried. -/
def pushRelatives (std : Str → Option JSDate) (fmt : JSDate → Str → Str) (now : JSDate)
    (trimmed : Str) (showTime : Bool) (currentParse : Option DateParseResult)
    (acc : List SmartSuggestion) : List SmartSuggestion :=
  if (match currentParse with
      | none => true
      | some cp => decide (cp.confidence < 800)) then
    match relFamilies.find? (fun fam => fam.1.any (fun k => strIncludes trimmed k)) with
    | some fam => (fam.2.take 2).foldl (pushPhrase std fmt now showTime) acc
    | none => acc
  else acc

/-- Deduplication by `value`, keeping the first occurrence (lines 656–660). -/
def dedupByValue : List SmartSuggestion → List SmartSuggestion
  | [] => []
  | x :: xs => x :: (dedupByValue xs).filter (fun y => y.value ≠ x.value)

/-- The descending-confidence order of the sort comparator of line 662. -/
def sugGE (a b : SmartSuggestion) : Prop := b.confidence ≤ a.confidence

instance : DecidableRel sugGE := fun a b => inferInstanceAs (Decidable (b.confidence ≤ a.confidence))

instance : IsTotal SmartSuggestion sugGE := ⟨fun a b => le_total b.confidence a.confidence⟩

instance : IsTrans SmartSuggestion sugGE := ⟨fun _ _ _ h1 h2 => le_trans h2 h1⟩

/-- Post-processing of lines 656–662: dedup by value, drop non-positive
confidences (a rational is never NaN, so the NaN guard is vacuous here),
then stable-sort descending by confidence. -/
def postProcess (l : List SmartSuggestion) : List SmartSuggestion :=
  List.insertionSort sugGE ((dedupByValue l).filter (fun s => decide (0 < s.confidence)))

/-- The confidence-tiered cap of lines 664–684. -/
def tierFilter (l : List SmartSuggestion) : List SmartSuggestion :=
  match l with
  | [] => []
  | top :: _ =>
      if 900 ≤ top.confidence then (l.filter (fun s => decide (850 ≤ s.confidence))).take 3
      else if 700 ≤ top.confidence then
        (l.filter (fun s => decide (600 ≤ s.confidence))).take 5
      else l.take 6

/-- The candidate pool of the non-empty-input path (lines 416–653): the
boosted direct suggestion, then the first eight contextual candidates, then
the keyword-family phrases. -/
def suggestionPool (std : Str → Option JSDate) (fmt : JSDate → Str → Str)
    (now : JSDate) (input : Str) (showTime : Bool) : List SmartSuggestion :=
  pushRelatives std fmt now (trimmedOf input) showTime (parseSmartDateString std now input)
    (naturalList fmt input showTime (parseSmartDateString std now input) ++
      (timeCtx std fmt now (trimmedOf input) showTime ++
        monthCtx std fmt now (trimmedOf input) (parseSmartDateString std now input) ++
        weekdayCtx std fmt now (trimmedOf input) showTime).take 8)

/-- Embedding of `generateSmartSuggestions`.  `fmt` embeds the external
date-fns `format` used for previews and labels. -/
def generateSmartSuggestions (std : Str → Option JSDate) (fmt : JSDate → Str → Str)
    (now : JSDate) (input : Str) (showTime : Bool) : List SmartSuggestion :=
  if (trimmedOf input).isEmpty then emptyBranch std fmt now showTime
  else tierFilter (postProcess (suggestionPool std fmt now input showTime))

/-!  General lemmas about the embedded operations. -/

/-- Setting the hour and then reading it back gives the hour that was set:
the remainder below one hour is non-negative and less than an hour. -/
theorem getHours_setHours (d : JSDate) (h : Int) : getHours (setHours d h) = h := by
  unfold getHours setHours
  simp only
  rw [add_comm, Int.add_mul_ediv_right _ _ (by norm_num : (3600000 : Int) ≠ 0),
    Int.ediv_eq_zero_of_lt (Int.emod_nonneg _ (by norm_num))
      (Int.emod_lt_of_pos _ (by norm_num)), zero_add]

/-- A result produced by the final assembly carries a confidence between the
0.3 floor and the 1.0 cap (in thousandths: between 300 and 1000). -/
theorem assembleResult_bounds (input : Str) (comps : ParsedComponents) (conf : Int)
    (d : JSDate) (r : DateParseResult) (h : assembleResult input comps conf d = some r) :
    300 ≤ r.confidence ∧ r.confidence ≤ 1000 := by
  unfold assembleResult at h
  split at h
  · exact absurd h (by simp)
  · next hc =>
      cases h
      exact ⟨le_min (le_of_not_lt hc) (by norm_num), min_le_right _ _⟩

/-- The time component of any assembled result is the `timeCompOf` stage
value of the input. -/
theorem parse_time_comp (std : Str → Option JSDate) (now : JSDate) (input : Str)
    (r : DateParseResult) (h : parseSmartDateString std now input = some r) :
    r.parsedComponents.time = timeCompOf input := by
  unfold parseSmartDateString at h
  split at h
  · exact absurd h (by simp)
  · split at h
    · exact absurd h (by simp)
    · unfold assembleResult at h
      split at h
      · exact absurd h (by simp)
      · cases h; rfl

/-!  C3.  Whenever the parser returns a result, its confidence lies in the
closed interval [0.3, 1.0]. -/

/-- C3: for every input, whenever `parseSmartDateString` returns a result,
the confidence satisfies 0.3 ≤ confidence ≤ 1.0 (in thousandths: 300 ≤
confidence ≤ 1000); an accumulated confidence below the floor yields `none`
instead. -/
theorem c3_confidence_bounds (std : Str → Option JSDate) (now : JSDate) (input : Str)
    (r : DateParseResult) (h : parseSmartDateString std now input = some r) :
    300 ≤ r.confidence ∧ r.confidence ≤ 1000 := by
  unfold parseSmartDateString at h
  split at h
  · exact absurd h (by simp)
  · split at h
    · exact absurd h (by simp)
    · exact assembleResult_bounds _ _ _ _ _ h

/-- Witness for C3 at the concrete input "tomorrow". -/
theorem c3_confidence_bounds_witness :
    ∃ r, parseSmartDateString (fun _ => none) ⟨0, 0, true⟩ "tomorrow".toList = some r ∧
      300 ≤ r.confidence ∧ r.confidence ≤ 1000 :=
  ⟨_, rfl, c3_confidence_bounds (fun _ => none) ⟨0, 0, true⟩ "tomorrow".toList _ rfl⟩

/-!  C1.  The spec says the day-first shape `<day> <month-name>` is accepted
by the Month/Day Resolver with confidence 0.75.  The code rejects it: the
branch dispatch `pattern.toString().includes("jan|january")` is true for the
day-first pattern as well, so `match[1]` (the digits) is looked up as a
month name (index −1) and `match[2]` (the month name) is fed to `parseInt`
(NaN), and validation fails.  Evaluating the embedded code on "15 oct"
shows the resolver contributes nothing and the whole parse falls through to
the fallback (here: a failing generic parse), yielding `none`. -/

/-- C1: the day-first input "15 oct" is matched by the day-first pattern of
the Month/Day Resolver, yet the resolver rejects it, and with a failing
generic fallback the whole parse returns `none` — against the claimed
acceptance with `parsedComponents.date` set and confidence 0.75. -/
theorem c1_day_first_rejected :
    ∀ now : JSDate,
      monthSearch "15 oct".toList =
        some ⟨"15 oct".toList, "15".toList, "oct".toList, true⟩ ∧
      monthResolve now "15 oct".toList = none ∧
      parseSmartDateString (fun _ => none) now "15 oct".toList = none :=
  fun _ => ⟨rfl, rfl, rfl⟩

/-!  C2.  On an out-of-range time match the Time Extractor contributes
nothing and sets no component — that much holds — but the matched substring
IS removed from the text handed to the date resolvers (lines 81–83 key the
removal on the match, not on acceptance), contradicting the claim's "the
matched substring NOT removed". -/

/-- Counterexample to C2 at the input "tomorrow 99pm": the time regex
matches "99pm", the hour 99 (111 after the pm shift) is rejected, and yet
the text handed to the date resolvers is "tomorrow", not the original
trimmed text — so the parse succeeds via the Relative Resolver with
confidence 0.9, where the claim's reading (no removal) would leave
"tomorrow 99pm", which no resolver matches. -/
theorem c2_removal_counterexample :
    timeMatchOf "tomorrow 99pm".toList =
      some ⟨"99pm".toList, "99".toList, none, some "pm".toList⟩ ∧
    extractedTimeOf "tomorrow 99pm".toList = none ∧
    inputWithoutTimeOf "tomorrow 99pm".toList = "tomorrow".toList ∧
    inputWithoutTimeOf "tomorrow 99pm".toList ≠ trimmedOf "tomorrow 99pm".toList ∧
    parseSmartDateString (fun _ => none) ⟨0, 0, true⟩ "tomorrow 99pm".toList =
      some ⟨⟨1, 0, true⟩, 900, "tomorrow 99pm".toList,
        ⟨some "tomorrow".toList, none, none, none, none⟩⟩ :=
  ⟨rfl, rfl, rfl, by decide, rfl⟩

/-- C2 as amended: when a time pattern matches but the hour or minute is out
of range, the Time Extractor contributes no weight and sets no
`parsedComponents.time`, and the text handed to the later date resolvers is
the trimmed lower-cased text WITH the matched substring removed (removal
happens on any match, accepted or not). -/
theorem c2_time_reject_amended (std : Str → Option JSDate) (now : JSDate) (input : Str)
    (m : TimeMatch) (h1 : timeMatchOf input = some m) (h2 : timeAccept m = none) :
    extractedTimeOf input = none ∧
    timeConfOf input = 0 ∧
    timeCompOf input = none ∧
    inputWithoutTimeOf input = trimStr (replaceFirst (trimmedOf input) m.whole) ∧
    (∀ r, parseSmartDateString std now input = some r →
      r.parsedComponents.time = none) := by
  have he : extractedTimeOf input = none := by
    unfold extractedTimeOf
    rw [h1]
    exact h2
  refine ⟨he, ?_, ?_, ?_, ?_⟩
  · unfold timeConfOf
    rw [he]
    rfl
  · unfold timeCompOf
    rw [he]
    rfl
  · unfold inputWithoutTimeOf
    rw [h1]
  · intro r hr
    rw [parse_time_comp std now input r hr]
    unfold timeCompOf
    rw [he]
    rfl

/-- Witness for the amended C2 at the concrete input "tomorrow 99pm". -/
theorem c2_time_reject_amended_witness :
    extractedTimeOf "tomorrow 99pm".toList = none ∧
    timeConfOf "tomorrow 99pm".toList = 0 ∧
    timeCompOf "tomorrow 99pm".toList = none ∧
    inputWithoutTimeOf "tomorrow 99pm".toList =
      trimStr (replaceFirst (trimmedOf "tomorrow 99pm".toList) "99pm".toList) ∧
    (∀ r, parseSmartDateString (fun _ => none) ⟨0, 0, true⟩ "tomorrow 99pm".toList = some r →
      r.parsedComponents.time = none) :=
  c2_time_reject_amended (fun _ => none) ⟨0, 0, true⟩ "tomorrow 99pm".toList
    ⟨"99pm".toList, "99".toList, none, some "pm".toList⟩ rfl rfl

/-!  C7.  "next friday 2pm": time and weekday components both set, summed
confidence capped at 1.0, and the extracted time overwriting the hour. -/

/-- C7: for every clock value, parsing "next friday 2pm" returns a result
with both `parsedComponents.weekday` and `parsedComponents.time` set,
confidence min(0.3 + 0.85, 1.0) = 1.0 (in thousandths: min (300 + 850) 1000
= 1000), and a resolved date whose hour is 14 — the extracted time
overwrites the resolver's default. -/
theorem c7_next_friday_2pm (now : JSDate) (std : Str → Option JSDate) :
    ∃ r, parseSmartDateString std now "next friday 2pm".toList = some r ∧
      r.parsedComponents.weekday = some "next friday".toList ∧
      r.parsedComponents.time = some "2pm".toList ∧
      r.confidence = min (300 + 850) 1000 ∧
      r.confidence = 1000 ∧
      getHours r.date = 14 := by
  have h : parseSmartDateString std now "next friday 2pm".toList = some
      ⟨setHours (setMinutes (addDays now
          (5 - (if getDay now = 0 then 7 else getDay now) + 7)) 0) 14,
        min (300 + 850) 1000, "next friday 2pm".toList,
        ⟨none, some "2pm".toList, some "next friday".toList, none, none⟩⟩ := rfl
  exact ⟨_, h, rfl, rfl, rfl, by norm_num, getHours_setHours _ _⟩

/-!  C9.  The claim generalises "dueDateStatus(now − 1) → overdue" to every
timestamp strictly before now, but the `!dueDate` falsiness guard sends the
timestamp 0 to "no due date" even when 0 < now, so the claim as stated is
false; it holds for every NONZERO timestamp strictly before now. -/

/-- Counterexample to C9: with the clock at 1000 ms past the epoch, the due
date 0 is strictly before now and is not `none`, yet the status is
`noDueDate`, not `overdue`. -/
theorem c9_zero_counterexample :
    (0 : Int) < getTime ⟨0, 1000, true⟩ ∧
    (getDueDateStatus (fun _ => []) (fun _ _ => []) ⟨0, 1000, true⟩ (some 0)).status =
      DueStatus.noDueDate ∧
    (getDueDateStatus (fun _ => []) (fun _ _ => []) ⟨0, 1000, true⟩ (some 0)).status ≠
      DueStatus.overdue :=
  ⟨by decide, rfl, by decide⟩

/-- C9 as amended: a missing due date yields `noDueDate`; every NONZERO
timestamp strictly before now yields `overdue`; and the status is always one
of the five listed states. -/
theorem c9_status_amended (relTime : Int → Str) (fmtD : Int → Str → Str)
    (now : JSDate) (t : Int) (h0 : t ≠ 0) (hlt : t < getTime now) :
    (getDueDateStatus relTime fmtD now none).status = DueStatus.noDueDate ∧
    (getDueDateStatus relTime fmtD now (some t)).status = DueStatus.overdue ∧
    (∀ d, (getDueDateStatus relTime fmtD now d).status = DueStatus.overdue ∨
      (getDueDateStatus relTime fmtD now d).status = DueStatus.dueToday ∨
      (getDueDateStatus relTime fmtD now d).status = DueStatus.dueSoon ∨
      (getDueDateStatus relTime fmtD now d).status = DueStatus.notDue ∨
      (getDueDateStatus relTime fmtD now d).status = DueStatus.noDueDate) := by
  refine ⟨rfl, ?_, ?_⟩
  · simp only [getDueDateStatus]
    rw [if_neg h0, if_pos hlt]
  · intro d
    rcases hs : (getDueDateStatus relTime fmtD now d).status with _ | _ | _ | _ | _ <;> simp

/-- Witness for the amended C9: clock at 2000 ms, due date 999 ms. -/
theorem c9_status_amended_witness :
    (getDueDateStatus (fun _ => []) (fun _ _ => []) ⟨0, 2000, true⟩ none).status =
      DueStatus.noDueDate ∧
    (getDueDateStatus (fun _ => []) (fun _ _ => []) ⟨0, 2000, true⟩ (some 999)).status =
      DueStatus.overdue ∧
    (∀ d, (getDueDateStatus (fun _ => []) (fun _ _ => []) ⟨0, 2000, true⟩ d).status =
        DueStatus.overdue ∨
      (getDueDateStatus (fun _ => []) (fun _ _ => []) ⟨0, 2000, true⟩ d).status =
        DueStatus.dueToday ∨
      (getDueDateStatus (fun _ => []) (fun _ _ => []) ⟨0, 2000, true⟩ d).status =
        DueStatus.dueSoon ∨
      (getDueDateStatus (fun _ => []) (fun _ _ => []) ⟨0, 2000, true⟩ d).status =
        DueStatus.notDue ∨
      (getDueDateStatus (fun _ => []) (fun _ _ => []) ⟨0, 2000, true⟩ d).status =
        DueStatus.noDueDate) :=
  c9_status_amended (fun _ => []) (fun _ _ => []) ⟨0, 2000, true⟩ 999 (by decide) (by decide)

/-!  C10.  The epoch timestamp 0 is treated as an absent due date by both
helpers, because the presence check is a falsiness test. -/

/-- C10: for every clock value, `getDueDateStatus` maps the timestamp 0 to
`noDueDate` (not `overdue`) and `isOverdue` maps it to `false`. -/
theorem c10_epoch_is_absent (relTime : Int → Str) (fmtD : Int → Str → Str)
    (now : JSDate) (nowMs : Int) :
    (getDueDateStatus relTime fmtD now (some 0)).status = DueStatus.noDueDate ∧
    isOverdue nowMs (some 0) = false :=
  ⟨rfl, rfl⟩

/-!  Character facts used when reasoning about symbolic digit strings. -/

/-- A digit character is bounded between '0' and '9'. -/
theorem digitB_bounds {c : Char} (h : digitB c = true) : '0' ≤ c ∧ c ≤ '9' := by
  simpa [digitB] using h

/-- A digit character is a word character. -/
theorem digitB_word {c : Char} (h : digitB c = true) : wordB c = true := by
  simp [wordB, h]

/-- A digit character is not whitespace. -/
theorem digitB_not_ws {c : Char} (h : digitB c = true) : wsB c = false := by
  rcases hw : wsB c with _ | _
  · rfl
  · simp only [wsB] at hw
    rcases of_decide_eq_true hw with h1 | h1 | h1 | h1 <;> subst h1 <;> simp [digitB] at h

/-- A digit character differs from any character below '0' or above '9'. -/
theorem digitB_ne {c d : Char} (h : digitB c = true) (hd : digitB d = false) : c ≠ d := by
  intro e; subst e; rw [h] at hd; cases hd

/-- A digit character is unchanged by lower-casing. -/
theorem digitB_lower {c : Char} (h : digitB c = true) : lowerChar c = c := by
  unfold lowerChar
  rw [if_neg]
  rintro ⟨ha, _⟩
  exact absurd (le_trans ha (digitB_bounds h).2) (by decide)

/-- All-digit prefix: `takeWhile` splits an all-digit list off a non-digit
continuation. -/
theorem takeWhile_digits_append (l : Str) (c0 : Char) (r : Str)
    (hl : ∀ x ∈ l, digitB x = true) (hc : digitB c0 = false) :
    (l ++ c0 :: r).takeWhile digitB = l := by
  induction l with
  | nil => simp [List.takeWhile_cons, hc]
  | cons a t ih =>
      rw [List.cons_append, List.takeWhile_cons, if_pos (hl a (by simp)),
        ih (fun x hx => hl x (by simp [hx]))]

/-- All-digit prefix: `dropWhile` keeps the non-digit continuation. -/
theorem dropWhile_digits_append (l : Str) (c0 : Char) (r : Str)
    (hl : ∀ x ∈ l, digitB x = true) (hc : digitB c0 = false) :
    (l ++ c0 :: r).dropWhile digitB = c0 :: r := by
  induction l with
  | nil => simp [List.dropWhile_cons, hc]
  | cons a t ih =>
      rw [List.cons_append, List.dropWhile_cons, if_pos (hl a (by simp))]
      exact ih (fun x hx => hl x (by simp [hx]))

/-- `dropWhile` is the identity when the head fails the test. -/
theorem dropWhile_id_head (p : Char → Bool) (l : Str)
    (h : ∀ c, l.head? = some c → p c = false) : l.dropWhile p = l := by
  cases l with
  | nil => rfl
  | cons c t => rw [List.dropWhile_cons, if_neg (by simp [h c rfl])]

/-- `trimStr` is the identity when neither end is whitespace. -/
theorem trimStr_id (s : Str) (h1 : ∀ c, s.head? = some c → wsB c = false)
    (h2 : ∀ c, s.getLast? = some c → wsB c = false) : trimStr s = s := by
  unfold trimStr
  rw [dropWhile_id_head _ _ h1, dropWhile_id_head _ _ (by
    intro c hc
    rw [List.head?_reverse] at hc
    exact h2 c hc), List.reverse_reverse]

/-!  Failure of the time patterns on a digit string followed by " day…". -/

/-- `digits12` yields nothing on a non-digit head. -/
theorem digits12_nondigit {c : Char} (r : Str) (h : digitB c = false) :
    digits12 (c :: r) = [] := by
  simp only [digits12]
  rw [if_neg (by simp [h])]

/-- `ampmAt` fails on a digit head. -/
theorem ampmAt_digit {c : Char} (r : Str) (h : digitB c = true) :
    ampmAt (c :: r) = none := by
  simp only [ampmAt]
  rw [if_neg (digitB_ne h (by decide)), if_neg (digitB_ne h (by decide))]

/-- `p1Rest` fails on a digit-headed remainder. -/
theorem p1Rest_digit (ds : Str) {c : Char} (r : Str) (h : digitB c = true) :
    p1Rest ds (c :: r) = none := by
  simp only [p1Rest, optColonMM]
  rw [if_neg (digitB_ne h (by decide))]
  simp only [List.findSome?, spanSpaces, List.takeWhile_cons, List.dropWhile_cons,
    digitB_not_ws h, Bool.false_eq_true, if_false, ampmAt_digit _ h]

/-- `p1Rest` fails on a remainder of the shape `" d…"`. -/
theorem p1Rest_space_d (ds rt : Str) : p1Rest ds (' ' :: 'd' :: rt) = none := by
  simp only [p1Rest, optColonMM]
  rw [if_neg (by decide)]
  simp only [List.findSome?, spanSpaces, List.takeWhile_cons, List.dropWhile_cons,
    show wsB ' ' = true from rfl, show wsB 'd' = false from rfl]
  simp [ampmAt]

/-- `p1Rest` fails on a digit string followed by `" d…"`. -/
theorem p1Rest_tail (ds y rt : Str) (hy : ∀ x ∈ y, digitB x = true) :
    p1Rest ds (y ++ ' ' :: 'd' :: rt) = none := by
  cases y with
  | nil => exact p1Rest_space_d ds rt
  | cons c t => exact p1Rest_digit ds _ (hy c (by simp))

/-- The first time pattern fails at a digit string followed by `" d…"`. -/
theorem pat1At_fail (c : Char) (tds rt : Str) (hc : digitB c = true)
    (ht : ∀ x ∈ tds, digitB x = true) :
    pat1At (c :: (tds ++ ' ' :: 'd' :: rt)) = none := by
  cases tds with
  | nil =>
      simp only [pat1At, digits12, List.nil_append]
      rw [if_pos hc]
      simp only [show digitB ' ' = false from rfl, Bool.false_eq_true, if_false,
        List.findSome?, p1Rest_space_d]
  | cons c2 t2 =>
      simp only [pat1At, digits12, List.cons_append]
      rw [if_pos hc, if_pos (ht c2 (by simp))]
      simp only [List.findSome?]
      rw [p1Rest_tail _ t2 rt (fun x hx => ht x (by simp [hx])),
        p1Rest_digit _ _ (ht c2 (by simp))]

/-- `p2Rest` fails on a digit-headed remainder. -/
theorem p2Rest_digit (ds : Str) {c : Char} (r : Str) (h : digitB c = true) :
    p2Rest ds (c :: r) = none := by
  simp only [p2Rest]
  rw [if_neg (digitB_ne h (by decide))]

/-- `p2Rest` fails on a remainder of the shape `" d…"`. -/
theorem p2Rest_space_d (ds rt : Str) : p2Rest ds (' ' :: 'd' :: rt) = none := by
  simp only [p2Rest]
  rw [if_neg (by decide)]

/-- `p2Rest` fails on a digit string followed by `" d…"`. -/
theorem p2Rest_tail (ds y rt : Str) (hy : ∀ x ∈ y, digitB x = true) :
    p2Rest ds (y ++ ' ' :: 'd' :: rt) = none := by
  cases y with
  | nil => exact p2Rest_space_d ds rt
  | cons c t => exact p2Rest_digit ds _ (hy c (by simp))

/-- The second time pattern fails at a digit string followed by `" d…"`. -/
theorem pat2At_fail (c : Char) (tds rt : Str) (hc : digitB c = true)
    (ht : ∀ x ∈ tds, digitB x = true) :
    pat2At (c :: (tds ++ ' ' :: 'd' :: rt)) = none := by
  cases tds with
  | nil =>
      simp only [pat2At, digits12, List.nil_append]
      rw [if_pos hc]
      simp only [show digitB ' ' = false from rfl, Bool.false_eq_true, if_false,
        List.findSome?, p2Rest_space_d]
  | cons c2 t2 =>
      simp only [pat2At, digits12, List.cons_append]
      rw [if_pos hc, if_pos (ht c2 (by simp))]
      simp only [List.findSome?]
      rw [p2Rest_tail _ t2 rt (fun x hx => ht x (by simp [hx])),
        p2Rest_digit _ _ (ht c2 (by simp))]

/-- `p3Rest` fails on a digit-headed remainder. -/
theorem p3Rest_digit (ds : Str) {c : Char} (r : Str) (h : digitB c = true) :
    p3Rest ds (c :: r) = none := by
  simp only [p3Rest, spanSpaces, List.takeWhile_cons, List.dropWhile_cons,
    digitB_not_ws h, Bool.false_eq_true, if_false]
  rw [ampmAt_digit _ h]

/-- `p3Rest` fails on a remainder of the shape `" d…"`. -/
theorem p3Rest_space_d (ds rt : Str) : p3Rest ds (' ' :: 'd' :: rt) = none := by
  simp only [p3Rest, spanSpaces, List.takeWhile_cons, List.dropWhile_cons,
    show wsB ' ' = true from rfl, show wsB 'd' = false from rfl]
  simp [ampmAt]

/-- `p3Rest` fails on a digit string followed by `" d…"`. -/
theorem p3Rest_tail (ds y rt : Str) (hy : ∀ x ∈ y, digitB x = true) :
    p3Rest ds (y ++ ' ' :: 'd' :: rt) = none := by
  cases y with
  | nil => exact p3Rest_space_d ds rt
  | cons c t => exact p3Rest_digit ds _ (hy c (by simp))

/-- The third time pattern fails at a digit string followed by `" d…"`. -/
theorem pat3At_fail (c : Char) (tds rt : Str) (hc : digitB c = true)
    (ht : ∀ x ∈ tds, digitB x = true) :
    pat3At (c :: (tds ++ ' ' :: 'd' :: rt)) = none := by
  cases tds with
  | nil =>
      simp only [pat3At, digits12, List.nil_append]
      rw [if_pos hc]
      simp only [show digitB ' ' = false from rfl, Bool.false_eq_true, if_false,
        List.findSome?, p3Rest_space_d]
  | cons c2 t2 =>
      simp only [pat3At, digits12, List.cons_append]
      rw [if_pos hc, if_pos (ht c2 (by simp))]
      simp only [List.findSome?]
      rw [p3Rest_tail _ t2 rt (fun x hx => ht x (by simp [hx])),
        p3Rest_digit _ _ (ht c2 (by simp))]

/-- The scanner skips an all-word-character suffix once the previous
character is a word character. -/
theorem scanBd_words (att : Str → Option TimeMatch) (l : Str)
    (h : ∀ c ∈ l, wordB c = true) : scanBd att true l = none := by
  induction l with
  | nil => rfl
  | cons c t ih =>
      simp only [scanBd, if_true]
      rw [h c (by simp)]
      exact ih (fun x hx => h x (by simp [hx]))

/-- The scanner finds nothing in a nonempty digit string followed by
`" d…"` with an all-word tail, for any pattern satisfying the failure
lemmas above. -/
theorem scanBd_digits_fail (att : Str → Option TimeMatch) (rt : Str)
    (hrt : ∀ c ∈ rt, wordB c = true)
    (hnd : ∀ (c : Char) (r : Str), digitB c = false → att (c :: r) = none)
    (hfail : ∀ (c : Char) (tds : Str), digitB c = true → (∀ x ∈ tds, digitB x = true) →
      att (c :: (tds ++ ' ' :: 'd' :: rt)) = none) :
    ∀ (ds : Str) (prevW : Bool), (∀ x ∈ ds, digitB x = true) → ds ≠ [] →
      scanBd att prevW (ds ++ ' ' :: 'd' :: rt) = none := by
  intro ds
  induction ds with
  | nil => intro _ _ hne; exact absurd rfl hne
  | cons c t ih =>
      intro prevW hds _
      have hc : digitB c = true := hds c (by simp)
      have hatt : att (c :: (t ++ ' ' :: 'd' :: rt)) = none :=
        hfail c t hc (fun x hx => hds x (by simp [hx]))
      have hrec : scanBd att true (t ++ ' ' :: 'd' :: rt) = none := by
        cases t with
        | nil =>
            simp only [List.nil_append, scanBd, if_true,
              show wordB ' ' = false from rfl, Bool.false_eq_true, if_false,
              hnd 'd' rt (by decide), show wordB 'd' = true from rfl]
            exact scanBd_words att rt hrt
        | cons c2 t2 => exact ih true (fun x hx => hds x (by simp [hx])) (by simp)
      cases prevW with
      | true =>
          simp only [List.cons_append, scanBd, if_true, List.append_eq, digitB_word hc]
          exact hrec
      | false =>
          simp only [List.cons_append, scanBd, Bool.false_eq_true, if_false,
            List.append_eq, hatt, digitB_word hc]
          exact hrec

/-- The first time pattern needs a digit at its start. -/
theorem pat1At_nondigit {c : Char} (r : Str) (h : digitB c = false) :
    pat1At (c :: r) = none := by
  simp [pat1At, digits12_nondigit _ h]

/-- The second time pattern needs a digit at its start. -/
theorem pat2At_nondigit {c : Char} (r : Str) (h : digitB c = false) :
    pat2At (c :: r) = none := by
  simp [pat2At, digits12_nondigit _ h]

/-- The third time pattern needs a digit at its start. -/
theorem pat3At_nondigit {c : Char} (r : Str) (h : digitB c = false) :
    pat3At (c :: r) = none := by
  simp [pat3At, digits12_nondigit _ h]

/-- No time pattern matches anywhere in `in <digits> d…` when the tail is
all word characters. -/
theorem timeSearch_inDays (ds rt : Str) (hds : ∀ x ∈ ds, digitB x = true) (hne : ds ≠ [])
    (hrt : ∀ c ∈ rt, wordB c = true) :
    timeSearch ('i' :: 'n' :: ' ' :: (ds ++ ' ' :: 'd' :: rt)) = none := by
  have h1 : ∀ att : Str → Option TimeMatch,
      (∀ (c : Char) (r : Str), digitB c = false → att (c :: r) = none) →
      (∀ (c : Char) (tds : Str), digitB c = true → (∀ x ∈ tds, digitB x = true) →
        att (c :: (tds ++ ' ' :: 'd' :: rt)) = none) →
      scanBd att false ('i' :: 'n' :: ' ' :: (ds ++ ' ' :: 'd' :: rt)) = none := by
    intro att hnd hfail
    simp only [scanBd, Bool.false_eq_true, if_false, hnd 'i' _ (by decide), if_true,
      show wordB 'i' = true from rfl, show wordB 'n' = true from rfl,
      show wordB ' ' = false from rfl]
    exact scanBd_digits_fail att rt hrt hnd hfail ds false hds hne
  unfold timeSearch
  rw [h1 pat1At (fun c r h => pat1At_nondigit r h) (fun c tds hc ht => pat1At_fail c tds rt hc ht),
    h1 pat2At (fun c r h => pat2At_nondigit r h) (fun c tds hc ht => pat2At_fail c tds rt hc ht),
    h1 pat3At (fun c r h => pat3At_nondigit r h) (fun c tds hc ht => pat3At_fail c tds rt hc ht)]

/-- The Relative Resolver on `in <digits> days`: the in-N-days rule fires
with the captured count. -/
theorem relMatch_inDays (now : JSDate) (c : Char) (t : Str)
    (hc : digitB c = true) (ht : ∀ x ∈ t, digitB x = true) :
    relMatch now ('i' :: 'n' :: ' ' :: (c :: t ++ ' ' :: 'd' :: ['a', 'y', 's'])) =
      some (addDays now (digitsToInt (c :: t)),
        'i' :: 'n' :: ' ' :: (c :: t ++ ' ' :: 'd' :: ['a', 'y', 's']), 850) := by
  have hca : c ≠ 'a' := digitB_ne hc (by decide)
  have hid : inDaysMatch ('i' :: 'n' :: ' ' :: (c :: t ++ ' ' :: 'd' :: ['a', 'y', 's'])) =
      some (digitsToInt (c :: t)) := by
    simp only [inDaysMatch]
    rw [show (c :: t) ++ ' ' :: 'd' :: ['a', 'y', 's'] =
        (c :: t) ++ ' ' :: ('d' :: ['a', 'y', 's']) from rfl] at *
    rw [takeWhile_digits_append (c :: t) ' ' _ (by
        intro x hx
        rcases hx with _ | hx
        · exact hc
        · exact ht x (by assumption)) (by decide),
      dropWhile_digits_append (c :: t) ' ' _ (by
        intro x hx
        rcases hx with _ | hx
        · exact hc
        · exact ht x (by assumption)) (by decide)]
    simp
  simp only [relMatch]
  rw [if_neg (by simp), if_neg (by simp), if_neg (by simp),
    if_neg (by simp [List.cons.injEq, hca]), if_neg (by simp),
    if_neg (by simp [List.cons.injEq, hca]), if_neg (by simp), hid]

/-- Trimming `in <digits> days` changes nothing: both ends are non-space. -/
theorem trimStr_inDays (ds : Str) :
    trimStr ("in ".toList ++ ds ++ " days".toList) =
      "in ".toList ++ ds ++ " days".toList := by
  apply trimStr_id
  · intro c hc
    rw [show "in ".toList ++ ds ++ " days".toList =
      'i' :: ('n' :: ' ' :: (ds ++ " days".toList)) from rfl] at hc
    simp only [List.head?_cons, Option.some.injEq] at hc
    subst hc
    rfl
  · intro c hc
    rw [show "in ".toList ++ ds ++ " days".toList =
      ("in ".toList ++ ds) ++ " days".toList from by simp, List.getLast?_append] at hc
    rw [show (" days".toList : Str).getLast? = some 's' from rfl] at hc
    simp only [Option.or] at hc
    cases hc
    rfl

/-- The trimmed lower-cased text of `in <digits> days` is itself. -/
theorem trimmedOf_inDays (ds : Str) (h2 : ∀ c ∈ ds, digitB c = true) :
    trimmedOf ("in ".toList ++ ds ++ " days".toList) =
      "in ".toList ++ ds ++ " days".toList := by
  unfold trimmedOf
  rw [trimStr_inDays, List.map_append, List.map_append,
    show (List.map lowerChar ds = ds) from by
      have := List.map_congr_left (fun c hc => digitB_lower (h2 c hc))
      rw [this]
      simp,
    show List.map lowerChar "in ".toList = "in ".toList from rfl,
    show List.map lowerChar " days".toList = " days".toList from rfl]

/-- Counterexample to C8 as frozen ("for EVERY nonnegative integer N …
date is now plus N days"): the numeral 200000000 keeps the in-N-days rule
firing (confidence 0.85, relative recorded), but now plus 200 000 000 days
lies beyond the ±8.64e15 ms JavaScript `Date` range, so the result's date
is the Invalid Date, not now plus N days. -/
theorem c8_range_counterexample :
    parseSmartDateString (fun _ => none) ⟨0, 0, true⟩ "in 200000000 days".toList =
      some ⟨invalidDate, 850, "in 200000000 days".toList,
        ⟨some "in 200000000 days".toList, none, none, none, none⟩⟩ ∧
    invalidDate.valid = false ∧
    invalidDate ≠ ⟨200000000, 0, true⟩ :=
  ⟨rfl, rfl, by decide⟩

/-- C8 as amended: for every nonempty decimal numeral (digit string) N such
that now plus N days stays within the JavaScript `Date` range, parsing the
exact string `in N days` yields a result whose date is now plus N days,
whose confidence is 0.85 (850 in thousandths), and whose
`parsedComponents.relative` records the matched phrase; the singular form
`in 1 day` is likewise accepted (beyond the range the rule still fires but
the resulting date is the Invalid Date, as the counterexample shows). -/
theorem c8_in_n_days (now : JSDate) (std : Str → Option JSDate) (ds : Str)
    (h1 : ds ≠ []) (h2 : ∀ c ∈ ds, digitB c = true)
    (h3 : now.valid = true)
    (h4 : -jsMaxTime ≤ (now.day + digitsToInt ds) * 86400000 + now.ms)
    (h5 : (now.day + digitsToInt ds) * 86400000 + now.ms ≤ jsMaxTime) :
    parseSmartDateString std now ("in ".toList ++ ds ++ " days".toList) =
      some ⟨⟨now.day + digitsToInt ds, now.ms, true⟩, 850,
        "in ".toList ++ ds ++ " days".toList,
        ⟨some ("in ".toList ++ ds ++ " days".toList), none, none, none, none⟩⟩ ∧
    parseSmartDateString std now "in 1 day".toList =
      some ⟨addDays now 1, 850, "in 1 day".toList,
        ⟨some "in 1 day".toList, none, none, none, none⟩⟩ := by
  have hadd : addDays now (digitsToInt ds) = ⟨now.day + digitsToInt ds, now.ms, true⟩ := by
    unfold addDays
    rw [if_pos ⟨h3, h4, h5⟩]
  refine ⟨?_, rfl⟩
  rw [← hadd]
  obtain ⟨c, t, rfl⟩ : ∃ c t, ds = c :: t := by
    cases ds with
    | nil => exact absurd rfl h1
    | cons c t => exact ⟨c, t, rfl⟩
  have hc : digitB c = true := h2 c (by simp)
  have ht : ∀ x ∈ t, digitB x = true := fun x hx => h2 x (by simp [hx])
  have htr : trimmedOf ("in ".toList ++ (c :: t) ++ " days".toList) =
      'i' :: 'n' :: ' ' :: (c :: t ++ ' ' :: 'd' :: ['a', 'y', 's']) := by
    rw [trimmedOf_inDays _ h2]
    rfl
  have htm : timeMatchOf ("in ".toList ++ (c :: t) ++ " days".toList) = none := by
    unfold timeMatchOf
    rw [htr]
    exact timeSearch_inDays (c :: t) ['a', 'y', 's'] h2 (by simp) (by decide)
  have het : extractedTimeOf ("in ".toList ++ (c :: t) ++ " days".toList) = none := by
    unfold extractedTimeOf
    rw [htm]
    rfl
  have hiwt : inputWithoutTimeOf ("in ".toList ++ (c :: t) ++ " days".toList) =
      'i' :: 'n' :: ' ' :: (c :: t ++ ' ' :: 'd' :: ['a', 'y', 's']) := by
    unfold inputWithoutTimeOf
    rw [htm, htr]
  have hconf : timeConfOf ("in ".toList ++ (c :: t) ++ " days".toList) = 0 := by
    unfold timeConfOf
    rw [het]
    rfl
  have hcomp : timeCompOf ("in ".toList ++ (c :: t) ++ " days".toList) = none := by
    unfold timeCompOf
    rw [het]
    rfl
  unfold parseSmartDateString
  rw [if_neg (by
    rw [trimStr_inDays]
    simp)]
  rw [hiwt]
  simp only [resolveDate, relMatch_inDays now c t hc ht]
  rw [assembleResult, hconf, het, hcomp]
  norm_num
  rfl

/-- Witness for the amended C8 at the concrete numeral "3" (clock at the
epoch, well within the range). -/
theorem c8_in_n_days_witness :
    parseSmartDateString (fun _ => none) ⟨0, 0, true⟩
        ("in ".toList ++ "3".toList ++ " days".toList) =
      some ⟨⟨3, 0, true⟩, 850, "in ".toList ++ "3".toList ++ " days".toList,
        ⟨some ("in ".toList ++ "3".toList ++ " days".toList), none, none, none, none⟩⟩ := by
  rw [(c8_in_n_days ⟨0, 0, true⟩ (fun _ => none) "3".toList (by decide) (by decide)
    rfl (by decide) (by decide)).1]
  rfl

/-!  Lemmas about the suggestion post-processing pipeline. -/

/-- Deduplication yields pairwise-distinct values. -/
theorem dedupByValue_pairwise (l : List SmartSuggestion) :
    (dedupByValue l).Pairwise (fun a b => a.value ≠ b.value) := by
  induction l with
  | nil => exact List.Pairwise.nil
  | cons x xs ih =>
      simp only [dedupByValue]
      refine List.Pairwise.cons ?_ (ih.filter _)
      intro y hy
      have := List.of_mem_filter hy
      simp only [decide_eq_true_eq] at this
      exact fun e => this (by rw [e])

/-- Deduplication only keeps elements of the original list. -/
theorem dedupByValue_subset (l : List SmartSuggestion) :
    ∀ x ∈ dedupByValue l, x ∈ l := by
  induction l with
  | nil => intro x hx; cases hx
  | cons a t ih =>
      intro x hx
      simp only [dedupByValue] at hx
      rcases hx with _ | hx
      · simp
      · next h => exact List.mem_cons_of_mem _ (ih x (List.mem_of_mem_filter h))

/-- Post-processing produces a list sorted by non-increasing confidence. -/
theorem postProcess_sorted (l : List SmartSuggestion) :
    (postProcess l).Pairwise sugGE :=
  List.sorted_insertionSort sugGE _

/-- Post-processing produces pairwise-distinct values. -/
theorem postProcess_pairwise (l : List SmartSuggestion) :
    (postProcess l).Pairwise (fun a b => a.value ≠ b.value) := by
  unfold postProcess
  have hperm := List.perm_insertionSort sugGE
    ((dedupByValue l).filter (fun s => decide (0 < s.confidence)))
  rw [List.Perm.pairwise_iff (fun h e => h e.symm) hperm]
  exact (dedupByValue_pairwise l).filter _

/-- Post-processing keeps only elements of the pool. -/
theorem postProcess_subset (l : List SmartSuggestion) :
    ∀ x ∈ postProcess l, x ∈ l := by
  intro x hx
  unfold postProcess at hx
  have := (List.perm_insertionSort sugGE _).mem_iff.mp hx
  exact dedupByValue_subset l x (List.mem_of_mem_filter this)

/-- The tier cap returns a sublist of its input. -/
theorem tierFilter_sublist (l : List SmartSuggestion) : (tierFilter l).Sublist l := by
  cases l with
  | nil => simp [tierFilter]
  | cons top rest =>
      simp only [tierFilter]
      split
      · exact (List.take_sublist _ _).trans (List.filter_sublist _)
      · split
        · exact (List.take_sublist _ _).trans (List.filter_sublist _)
        · exact List.take_sublist _ _

/-- The confidence-tiered cap property of the spec (§4.7, in thousandths):
if the top confidence is at least 0.9, every entry is at least 0.85 and
there are at most three; failing that, if the top is at least 0.7, every
entry is at least 0.6 and there are at most five; otherwise at most six. -/
def tierProp (L : List SmartSuggestion) : Prop :=
  ∀ top, L.head? = some top →
    (900 ≤ top.confidence → (∀ s ∈ L, 850 ≤ s.confidence) ∧ L.length ≤ 3) ∧
    (top.confidence < 900 → 700 ≤ top.confidence →
      (∀ s ∈ L, 600 ≤ s.confidence) ∧ L.length ≤ 5) ∧
    (top.confidence < 700 → L.length ≤ 6)

/-- The tier cap establishes the tier property on any input list. -/
theorem tierFilter_prop (l : List SmartSuggestion) : tierProp (tierFilter l) := by
  cases l with
  | nil => intro top htop; cases htop
  | cons x xs =>
      simp only [tierFilter]
      split
      · next h9 =>
          have hx : decide (850 ≤ x.confidence) = true := decide_eq_true (by omega)
          rw [List.filter_cons, if_pos hx, List.take_succ_cons]
          intro top htop
          rw [List.head?_cons, Option.some.injEq] at htop
          subst htop
          refine ⟨fun _ => ⟨?_, ?_⟩, fun hlt _ => absurd h9 (by omega),
            fun hlt => absurd h9 (by omega)⟩
          · intro s hs
            rcases List.mem_cons.mp hs with rfl | hs
            · omega
            · have := List.of_mem_filter ((List.take_sublist _ _).subset hs)
              simpa using this
          · simp only [List.length_cons]
            have := List.length_take_le 2
              (List.filter (fun s => decide (850 ≤ s.confidence)) xs)
            omega
      · next h9 =>
          split
          · next h7 =>
              have hx : decide (600 ≤ x.confidence) = true := decide_eq_true (by omega)
              rw [List.filter_cons, if_pos hx, List.take_succ_cons]
              intro top htop
              rw [List.head?_cons, Option.some.injEq] at htop
              subst htop
              refine ⟨fun h => absurd h h9, fun _ _ => ⟨?_, ?_⟩,
                fun hlt => absurd h7 (by omega)⟩
              · intro s hs
                rcases List.mem_cons.mp hs with rfl | hs
                · omega
                · have := List.of_mem_filter ((List.take_sublist _ _).subset hs)
                  simpa using this
              · simp only [List.length_cons]
                have := List.length_take_le 4
                  (List.filter (fun s => decide (600 ≤ s.confidence)) xs)
                omega
          · next h7 =>
              rw [List.take_succ_cons]
              intro top htop
              rw [List.head?_cons, Option.some.injEq] at htop
              subst htop
              refine ⟨fun h => absurd h h9, fun _ h => absurd h h7, fun _ => ?_⟩
              simp only [List.length_cons]
              have := List.length_take_le 5 xs
              omega

/-- The five curated empty-input values all parse, for every clock and
fallback oracle (each is settled before the fallback is consulted). -/
theorem curated_values_parse (std : Str → Option JSDate) (now : JSDate) :
    (parseSmartDateString std now "tomorrow".toList).isSome = true ∧
    (parseSmartDateString std now "next week".toList).isSome = true ∧
    (parseSmartDateString std now "next monday".toList).isSome = true ∧
    (parseSmartDateString std now "tomorrow 10am".toList).isSome = true ∧
    (parseSmartDateString std now "end of day".toList).isSome = true :=
  ⟨rfl, rfl, rfl, rfl, rfl⟩

/-- Every suggestion of the curated empty-input branch has a parseable
value. -/
theorem emptyBranch_valid (std : Str → Option JSDate) (fmt : JSDate → Str → Str)
    (now : JSDate) (showTime : Bool) :
    ∀ s ∈ emptyBranch std fmt now showTime,
      (parseSmartDateString std now s.value).isSome = true := by
  intro s hs
  have hs2 := (List.take_sublist _ _).subset hs
  rw [List.mem_map] at hs2
  obtain ⟨b, hb, rfl⟩ := hs2
  have hval : (match parseSmartDateString std now b.2.1 with
      | some pr =>
          (⟨b.1, b.2.1, b.2.2, fmt pr.date (if showTime then fmtWithTime else fmtDateOnly),
            some pr.date, .relative⟩ : SmartSuggestion)
      | none => ⟨b.1, b.2.1, b.2.2, b.1, none, .relative⟩).value = b.2.1 := by
    cases parseSmartDateString std now b.2.1 <;> rfl
  rw [hval]
  have hc := curated_values_parse std now
  cases showTime with
  | false =>
      simp only [if_false, Bool.false_eq_true, List.append_nil, List.mem_cons,
        List.not_mem_nil, or_false] at hb
      rcases hb with rfl | rfl | rfl
      · exact hc.1
      · exact hc.2.1
      · exact hc.2.2.1
  | true =>
      simp only [if_true, List.mem_append, List.mem_cons, List.not_mem_nil, or_false] at hb
      rcases hb with (rfl | rfl | rfl) | (rfl | rfl)
      · exact hc.1
      · exact hc.2.1
      · exact hc.2.2.1
      · exact hc.2.2.2.1
      · exact hc.2.2.2.2

/-- The boosted direct suggestion carries the already-parsed raw input. -/
theorem naturalList_valid (std : Str → Option JSDate) (fmt : JSDate → Str → Str)
    (now : JSDate) (input : Str) (showTime : Bool) :
    ∀ s ∈ naturalList fmt input showTime (parseSmartDateString std now input),
      (parseSmartDateString std now s.value).isSome = true := by
  intro s hs
  unfold naturalList at hs
  split at hs
  · next cp heq =>
      split at hs
      · rw [List.mem_singleton] at hs
        subst hs
        simp only [heq, Option.isSome_some]
      · cases hs
  · cases hs

/-- Every contextual time suggestion carries a parser-validated value. -/
theorem timeCtx_valid (std : Str → Option JSDate) (fmt : JSDate → Str → Str)
    (now : JSDate) (trimmed : Str) (showTime : Bool) :
    ∀ s ∈ timeCtx std fmt now trimmed showTime,
      (parseSmartDateString std now s.value).isSome = true := by
  intro s hs
  unfold timeCtx at hs
  split at hs
  · rw [List.mem_flatMap] at hs
    obtain ⟨b, _, hs⟩ := hs
    rw [List.mem_filterMap] at hs
    obtain ⟨t, _, hft⟩ := hs
    rcases heq : parseSmartDateString std now (b.1 ++ ' ' :: t) with _ | pr
    · rw [heq] at hft; cases hft
    · rw [heq] at hft
      cases hft
      simp only [heq, Option.isSome_some]
  · cases hs

/-- Every per-month contextual suggestion carries a parser-validated value. -/
theorem monthCtxBody_valid (std : Str → Option JSDate) (fmt : JSDate → Str → Str)
    (now : JSDate) (trimmed : Str) (month : Str) :
    ∀ s ∈ monthCtxBody std fmt now trimmed month,
      (parseSmartDateString std now s.value).isSome = true := by
  intro s hs
  unfold monthCtxBody at hs
  rw [List.mem_filterMap] at hs
  obtain ⟨d, _, hft⟩ := hs
  rcases heq : parseSmartDateString std now (month ++ ' ' :: natToStr d) with _ | pr
  · rw [heq] at hft; cases hft
  · rw [heq] at hft
    have hft2 : (if month ++ ' ' :: natToStr d ≠ trimmed then
        some (⟨capFirst month ++ ' ' :: natToStr d, month ++ ' ' :: natToStr d, 650,
          fmt pr.date fmtDateOnly, some pr.date, .date⟩ : SmartSuggestion)
      else none) = some s := hft
    by_cases hv : month ++ ' ' :: natToStr d ≠ trimmed
    · rw [if_pos hv] at hft2
      cases hft2
      simp only [heq, Option.isSome_some]
    · rw [if_neg hv] at hft2
      cases hft2

/-- Every contextual month suggestion carries a parser-validated value. -/
theorem monthCtx_valid (std : Str → Option JSDate) (fmt : JSDate → Str → Str)
    (now : JSDate) (trimmed : Str) (cp : Option DateParseResult) :
    ∀ s ∈ monthCtx std fmt now trimmed cp,
      (parseSmartDateString std now s.value).isSome = true := by
  intro s hs
  unfold monthCtx at hs
  split at hs
  · rw [List.mem_flatMap] at hs
    obtain ⟨month, _, hs⟩ := hs
    exact monthCtxBody_valid std fmt now trimmed month s hs
  · cases hs

/-- Every contextual weekday suggestion carries a parser-validated value. -/
theorem weekdayCtx_valid (std : Str → Option JSDate) (fmt : JSDate → Str → Str)
    (now : JSDate) (trimmed : Str) (showTime : Bool) :
    ∀ s ∈ weekdayCtx std fmt now trimmed showTime,
      (parseSmartDateString std now s.value).isSome = true := by
  intro s hs
  unfold weekdayCtx at hs
  rw [List.mem_flatMap] at hs
  obtain ⟨wd, _, hs⟩ := hs
  rw [List.mem_flatMap] at hs
  obtain ⟨pre, _, hs⟩ := hs
  rcases heq : parseSmartDateString std now (pre ++ wd) with _ | pr
  · rw [heq] at hs; cases hs
  · rw [heq] at hs
    rcases List.mem_cons.mp hs with rfl | hs2
    · simp only [heq, Option.isSome_some]
    · split at hs2
      · rw [List.mem_filterMap] at hs2
        obtain ⟨t, _, hft⟩ := hs2
        rcases heqt : parseSmartDateString std now (pre ++ wd ++ ' ' :: t) with _ | tpr
        · rw [heqt] at hft; cases hft
        · rw [heqt] at hft
          cases hft
          simp only [heqt, Option.isSome_some]
      · cases hs2

/-- Pushing one canned phrase preserves value-parseability. -/
theorem pushPhrase_valid (std : Str → Option JSDate) (fmt : JSDate → Str → Str)
    (now : JSDate) (showTime : Bool) (acc : List SmartSuggestion) (ph : Str)
    (hacc : ∀ s ∈ acc, (parseSmartDateString std now s.value).isSome = true) :
    ∀ s ∈ pushPhrase std fmt now showTime acc ph,
      (parseSmartDateString std now s.value).isSome = true := by
  intro s hs
  unfold pushPhrase at hs
  split at hs
  · exact hacc s hs
  · revert hs
    split
    · next pr heq =>
        intro hs
        split at hs
        · exact hacc s hs
        · rw [List.mem_append] at hs
          rcases hs with hs | hs
          · exact hacc s hs
          · rw [List.mem_singleton] at hs
            subst hs
            simp only [heq, Option.isSome_some]
    · intro hs
      exact hacc s hs

/-- The keyword-family stage preserves value-parseability. -/
theorem pushRelatives_valid (std : Str → Option JSDate) (fmt : JSDate → Str → Str)
    (now : JSDate) (trimmed : Str) (showTime : Bool) (cp : Option DateParseResult)
    (acc : List SmartSuggestion)
    (hacc : ∀ s ∈ acc, (parseSmartDateString std now s.value).isSome = true) :
    ∀ s ∈ pushRelatives std fmt now trimmed showTime cp acc,
      (parseSmartDateString std now s.value).isSome = true := by
  have hfold : ∀ (phs : List Str) (a : List SmartSuggestion),
      (∀ s ∈ a, (parseSmartDateString std now s.value).isSome = true) →
      ∀ s ∈ phs.foldl (pushPhrase std fmt now showTime) a,
        (parseSmartDateString std now s.value).isSome = true := by
    intro phs
    induction phs with
    | nil => intro a ha; exact ha
    | cons p t ih =>
        intro a ha
        exact ih _ (pushPhrase_valid std fmt now showTime a p ha)
  intro s hs
  unfold pushRelatives at hs
  split at hs
  · revert hs
    split
    · intro hs
      exact hfold _ _ hacc s hs
    · intro hs
      exact hacc s hs
  · exact hacc s hs

/-- Every element of the candidate pool has a parseable value. -/
theorem suggestionPool_valid (std : Str → Option JSDate) (fmt : JSDate → Str → Str)
    (now : JSDate) (input : Str) (showTime : Bool) :
    ∀ s ∈ suggestionPool std fmt now input showTime,
      (parseSmartDateString std now s.value).isSome = true := by
  unfold suggestionPool
  apply pushRelatives_valid
  intro s hs
  rw [List.mem_append] at hs
  rcases hs with hs | hs
  · exact naturalList_valid std fmt now input showTime s hs
  · have hs2 := (List.take_sublist _ _).subset hs
    rw [List.mem_append] at hs2
    rcases hs2 with hs2 | hs2
    · rw [List.mem_append] at hs2
      rcases hs2 with hs2 | hs2
      · exact timeCtx_valid std fmt now _ showTime s hs2
      · exact monthCtx_valid std fmt now _ _ s hs2
    · exact weekdayCtx_valid std fmt now _ showTime s hs2

/-- C4: every suggestion returned by the generator — including the curated
empty-input branch — has a value that the parser accepts. -/
theorem c4_suggestions_parseable (std : Str → Option JSDate) (fmt : JSDate → Str → Str)
    (now : JSDate) (input : Str) (showTime : Bool) :
    ∀ s ∈ generateSmartSuggestions std fmt now input showTime,
      (parseSmartDateString std now s.value).isSome = true := by
  intro s hs
  unfold generateSmartSuggestions at hs
  split at hs
  · exact emptyBranch_valid std fmt now showTime s hs
  · exact suggestionPool_valid std fmt now input showTime s
      (postProcess_subset _ s ((tierFilter_sublist _).subset hs))

/-- Witness for C4: the first curated suggestion for the empty input. -/
theorem c4_suggestions_parseable_witness :
    (parseSmartDateString (fun _ => none) ⟨0, 0, true⟩ "tomorrow".toList).isSome = true :=
  c4_suggestions_parseable (fun _ => none) (fun _ _ => []) ⟨0, 0, true⟩ [] false
    ⟨"Tomorrow".toList, "tomorrow".toList, 1000, [], some ⟨1, 0, true⟩, .relative⟩ (by decide)

/-- The values of the curated empty-input list are its base values. -/
theorem emptyMap_value (std : Str → Option JSDate) (fmt : JSDate → Str → Str)
    (now : JSDate) (showTime : Bool) (b : Str × Str × Int) :
    (match parseSmartDateString std now b.2.1 with
      | some pr =>
          (⟨b.1, b.2.1, b.2.2, fmt pr.date (if showTime then fmtWithTime else fmtDateOnly),
            some pr.date, .relative⟩ : SmartSuggestion)
      | none => ⟨b.1, b.2.1, b.2.2, b.1, none, .relative⟩).value = b.2.1 := by
  cases parseSmartDateString std now b.2.1 <;> rfl

/-- The confidences of the curated empty-input list are its base weights. -/
theorem emptyMap_conf (std : Str → Option JSDate) (fmt : JSDate → Str → Str)
    (now : JSDate) (showTime : Bool) (b : Str × Str × Int) :
    (match parseSmartDateString std now b.2.1 with
      | some pr =>
          (⟨b.1, b.2.1, b.2.2, fmt pr.date (if showTime then fmtWithTime else fmtDateOnly),
            some pr.date, .relative⟩ : SmartSuggestion)
      | none => ⟨b.1, b.2.1, b.2.2, b.1, none, .relative⟩).confidence = b.2.2 := by
  cases parseSmartDateString std now b.2.1 <;> rfl

/-- The curated empty-input list has distinct values and non-increasing
confidences. -/
theorem emptyBranch_pairwise (std : Str → Option JSDate) (fmt : JSDate → Str → Str)
    (now : JSDate) (showTime : Bool) :
    (emptyBranch std fmt now showTime).Pairwise (fun a b => a.value ≠ b.value) ∧
    (emptyBranch std fmt now showTime).Pairwise (fun a b => b.confidence ≤ a.confidence) := by
  unfold emptyBranch
  constructor
  · apply List.Pairwise.sublist (List.take_sublist _ _)
    rw [List.pairwise_map]
    refine List.Pairwise.imp
      (fun {a b} (h : a.2.1 ≠ b.2.1) => by
        rw [emptyMap_value std fmt now showTime a, emptyMap_value std fmt now showTime b]
        exact h) ?_
    exact (by cases showTime <;> decide :
        List.Pairwise (fun a b : Str × Str × Int => a.2.1 ≠ b.2.1)
          ([("Tomorrow".toList, "tomorrow".toList, 1000),
            ("Next week".toList, "next week".toList, 1000),
            ("Next Monday".toList, "next monday".toList, 900)] ++
          (if showTime then
            [("Tomorrow 10am".toList, "tomorrow 10am".toList, 900),
             ("End of day".toList, "end of day".toList, 800)]
           else [])))
  · apply List.Pairwise.sublist (List.take_sublist _ _)
    rw [List.pairwise_map]
    refine List.Pairwise.imp
      (fun {a b} (h : b.2.2 ≤ a.2.2) => by
        rw [emptyMap_conf std fmt now showTime a, emptyMap_conf std fmt now showTime b]
        exact h) ?_
    exact (by cases showTime <;> decide :
        List.Pairwise (fun a b : Str × Str × Int => b.2.2 ≤ a.2.2)
          ([("Tomorrow".toList, "tomorrow".toList, 1000),
            ("Next week".toList, "next week".toList, 1000),
            ("Next Monday".toList, "next monday".toList, 900)] ++
          (if showTime then
            [("Tomorrow 10am".toList, "tomorrow 10am".toList, 900),
             ("End of day".toList, "end of day".toList, 800)]
           else [])))

/-- C5: the returned suggestion list never contains two entries with the
same value, and its confidences are non-increasing by position. -/
theorem c5_nodup_sorted (std : Str → Option JSDate) (fmt : JSDate → Str → Str)
    (now : JSDate) (input : Str) (showTime : Bool) :
    (generateSmartSuggestions std fmt now input showTime).Pairwise
      (fun a b => a.value ≠ b.value) ∧
    (generateSmartSuggestions std fmt now input showTime).Pairwise
      (fun a b => b.confidence ≤ a.confidence) := by
  unfold generateSmartSuggestions
  split
  · exact emptyBranch_pairwise std fmt now showTime
  · exact ⟨List.Pairwise.sublist (tierFilter_sublist _) (postProcess_pairwise _),
      List.Pairwise.sublist (tierFilter_sublist _) (postProcess_sorted _)⟩

/-- Counterexample to C6: for the empty input with time enabled, the
generator returns its curated list of four entries whose top confidence is
1.0 (1000) — the "top ≥ 0.9 implies at most 3 entries" cap is not applied
on this branch. -/
theorem c6_tier_counterexample :
    (generateSmartSuggestions (fun _ => none) (fun _ _ => []) ⟨0, 0, true⟩ [] true).length = 4 ∧
    (∃ top,
      (generateSmartSuggestions (fun _ => none) (fun _ _ => []) ⟨0, 0, true⟩ [] true).head? =
        some top ∧
      900 ≤ top.confidence) ∧
    ¬ ((generateSmartSuggestions (fun _ => none) (fun _ _ => []) ⟨0, 0, true⟩ [] true).length ≤ 3) :=
  ⟨rfl, ⟨_, rfl, by decide⟩, by decide⟩

/-- C6 as amended: the confidence-tiered cap (and the at-most-8 bound on an
empty pool, trivially) holds for every input whose trimmed text is
non-empty; the curated empty-input branch bypasses the post-processing and
returns at most 4 entries. -/
theorem c6_tier_amended (std : Str → Option JSDate) (fmt : JSDate → Str → Str)
    (now : JSDate) (input : Str) (showTime : Bool) :
    (¬ (trimmedOf input).isEmpty = true →
      tierProp (generateSmartSuggestions std fmt now input showTime) ∧
      (generateSmartSuggestions std fmt now input showTime).length ≤ 8) ∧
    ((trimmedOf input).isEmpty = true →
      (generateSmartSuggestions std fmt now input showTime).length ≤ 4) := by
  unfold generateSmartSuggestions
  by_cases h : (trimmedOf input).isEmpty = true
  · rw [if_pos h]
    refine ⟨fun hc => absurd h hc, fun _ => ?_⟩
    unfold emptyBranch
    exact List.length_take_le _ _
  · rw [if_neg h]
    refine ⟨fun _ => ⟨tierFilter_prop _, ?_⟩, fun hc => absurd hc h⟩
    have hsub := tierFilter_sublist (postProcess (suggestionPool std fmt now input showTime))
    have := hsub.length_le
    have hlen : (tierFilter (postProcess (suggestionPool std fmt now input showTime))).length ≤ 6 := by
      generalize postProcess (suggestionPool std fmt now input showTime) = l
      cases l with
      | nil => simp [tierFilter]
      | cons x xs =>
          simp only [tierFilter]
          split
          · have := List.length_take_le 3
              (List.filter (fun s => decide (850 ≤ s.confidence)) (x :: xs))
            omega
          · split
            · have := List.length_take_le 5
                (List.filter (fun s => decide (600 ≤ s.confidence)) (x :: xs))
              omega
            · have := List.length_take_le 6 (x :: xs)
              omega
    omega

/-- Witness for the amended C6 at the concrete input "tomorrow". -/
theorem c6_tier_amended_witness :
    tierProp (generateSmartSuggestions (fun _ => none) (fun _ _ => [])
      ⟨0, 0, true⟩ "tomorrow".toList false) ∧
    (generateSmartSuggestions (fun _ => none) (fun _ _ => [])
      ⟨0, 0, true⟩ "tomorrow".toList false).length ≤ 8 :=
  (c6_tier_amended (fun _ => none) (fun _ _ => []) ⟨0, 0, true⟩ "tomorrow".toList false).1
    (by decide)
